import Mathlib

/-!
Verification of the Bio.SearchIO AnarciIO parsers and indexers
(`Bio/SearchIO/AnarciIO/anarci_num.py` and `anarci_hits.py`).

Files are modelled as byte sequences (`List Char`, one `Char` per byte of the
ASCII text), lines as the sub-sequences produced by `readline` (terminating
`'\x0a'` included).  Python behaviours are modelled as follows: reading an
unbound local raises `NameError`; out-of-range subscripts raise `IndexError`;
failing `int()` / `float()` conversions and tuple-unpack mismatches raise
`ValueError`; fallible steps therefore return `Except PyErr`.  Float values are
never computed with — the parsers only store them — so a float field keeps the
validated source token verbatim.
-/

set_option maxRecDepth 40000

namespace Anarci

abbrev Chars := List Char

/-- Python whitespace for `str.split()` / `str.strip()` (ASCII range). -/
def isPySpace (c : Char) : Bool :=
  c = ' ' || c = '\t' || c = '\n' || c = '\r' || c = '\x0b' || c = '\x0c'

/-- A line is "blank" exactly when `line.strip()` is falsy in Python. -/
def isBlank (l : Chars) : Bool := l.all isPySpace

def isDigitCh (c : Char) : Bool := '0' ≤ c && c ≤ '9'

/-- `\w` of the `re` module, restricted to the ASCII input domain. -/
def isWordCh (c : Char) : Bool :=
  ('a' ≤ c && c ≤ 'z') || ('A' ≤ c && c ≤ 'Z') || isDigitCh c || c = '_'

/-- Helper for `str.split()` (whitespace split, empty tokens dropped);
`acc` holds the reversed current token. -/
def pySplitGo : List Char → List Char → List Chars
  | [], acc => if acc.isEmpty then [] else [acc.reverse]
  | c :: cs, acc =>
    if isPySpace c then
      if acc.isEmpty then pySplitGo cs [] else acc.reverse :: pySplitGo cs []
    else pySplitGo cs (c :: acc)

/-- Python `line.split()`. -/
def pySplit (l : Chars) : List Chars := pySplitGo l []

/-- Helper for `str.split(sep)` (separator split, empty tokens kept). -/
def pySplitCharGo (sep : Char) : List Char → List Char → List Chars
  | [], acc => [acc.reverse]
  | c :: cs, acc =>
    if c = sep then acc.reverse :: pySplitCharGo sep cs []
    else pySplitCharGo sep cs (c :: acc)

/-- Python `line.split(sep)` for a one-character separator. -/
def pySplitChar (l : Chars) (sep : Char) : List Chars := pySplitCharGo sep l []

/-- Python `str.startswith`. -/
def pyStartswith (l p : Chars) : Bool := p.isPrefixOf l

/-- Python `str.upper()` on the ASCII domain. -/
def pyUpper (l : Chars) : Chars := l.map Char.toUpper

/-- Python `str.lower()` on the ASCII domain. -/
def pyLower (l : Chars) : Chars := l.map Char.toLower

/-- Python `' '.join(tokens)`. -/
def joinSpace : List Chars → Chars
  | [] => []
  | [x] => x
  | x :: xs => x ++ ' ' :: joinSpace xs

/-- Python `line[:2] == '//'`. -/
def isTerm (l : Chars) : Bool := l.take 2 = ('/' :: '/' :: [])

/-- Drop one optional leading sign, as `int()` / `float()` accept. -/
def afterSign : List Char → List Char
  | '+' :: r => r
  | '-' :: r => r
  | r => r

def digitsVal : List Char → Nat :=
  List.foldl (fun acc c => 10 * acc + (c.toNat - '0'.toNat)) 0

/-- Python `int(token)` for the decimal literals the parsers meet
(optional surrounding whitespace, optional sign, digits); `none` models
`ValueError`. -/
def pyInt? (s : Chars) : Option Int :=
  let t := (s.dropWhile isPySpace).reverse.dropWhile isPySpace |>.reverse
  match t with
  | '-' :: r => if !r.isEmpty && r.all isDigitCh then some (-(digitsVal r : Int)) else none
  | '+' :: r => if !r.isEmpty && r.all isDigitCh then some ((digitsVal r : Int)) else none
  | r => if !r.isEmpty && r.all isDigitCh then some ((digitsVal r : Int)) else none

/-- Count a leading run of digits, returning the remainder. -/
def digitsRun : List Char → Nat × List Char
  | [] => (0, [])
  | c :: cs =>
    if isDigitCh c then
      let (n, r) := digitsRun cs
      (n + 1, r)
    else (0, c :: cs)

/-- Exponent tail of a float literal: empty, or `e`/`E`, optional sign, digits. -/
def expPartOk : List Char → Bool
  | [] => true
  | c :: r =>
    if c = 'e' || c = 'E' then
      let r2 := afterSign r
      let p := digitsRun r2
      decide (0 < p.1) && p.2.isEmpty
    else false

/-- Mantissa of a float literal: digits, optional point and fraction digits. -/
def mantissaOk (s : List Char) : Bool :=
  let p1 := digitsRun s
  match p1.2 with
  | '.' :: r2 =>
    let p2 := digitsRun r2
    (decide (0 < p1.1) || decide (0 < p2.1)) && expPartOk p2.2
  | r1 => decide (0 < p1.1) && expPartOk r1

/-- Does `float(token)` succeed?  (Whitespace stripped, optional sign, then a
decimal/exponent literal or `inf`/`infinity`/`nan`.) -/
def pyFloatOk (s : Chars) : Bool :=
  let t := (s.dropWhile isPySpace).reverse.dropWhile isPySpace |>.reverse
  let t1 := afterSign t
  let tl := pyLower t1
  tl = ("inf".toList) || tl = ("infinity".toList) || tl = ("nan".toList) || mantissaOk t1

/-- Python slice `s[a:b]` with `int` bounds (negative indices count from the
end, out-of-range bounds are clamped). -/
def pySlice (s : Chars) (a b : Int) : Chars :=
  let n : Int := s.length
  let lo : Nat := if a < 0 then (a + n).toNat else min a.toNat s.length
  let hi : Nat := if b < 0 then (b + n).toNat else min b.toNat s.length
  (s.take hi).drop lo

/-! ### The two `re.search` patterns, with existence semantics

`re.search(p, line)` is truthy iff some substring of `line` matches `p`; for
the two patterns used (`\|\w+\|\w\|.+\|.+\|\d+\|\d+\|` and
`\|\w+\|.+\|\d\.\d+\|.+\|\d\.\d+\|`) that existence is decided by a
backtracking matcher over literal characters and the character classes
`\w`, `\d` and `.` (any character but a newline). -/

inductive RAtom
  | lit (c : Char)
  | wOne
  | wPlus
  | dOne
  | dPlus
  | aPlus
deriving Repr, DecidableEq

def ratomOne : RAtom → Char → Bool
  | .lit a, c => c = a
  | .wOne, c => isWordCh c
  | .wPlus, c => isWordCh c
  | .dOne, c => isDigitCh c
  | .dPlus, c => isDigitCh c
  | .aPlus, c => c ≠ '\n'

def ratomRep : RAtom → Bool
  | .wPlus => true
  | .dPlus => true
  | .aPlus => true
  | _ => false

/-- Does the atom list match some prefix of the text? -/
def reMatch : List RAtom → List Char → Bool
  | [], _ => true
  | _ :: _, [] => false
  | p :: ps, c :: cs =>
    ratomOne p c && (reMatch ps cs || (ratomRep p && reMatch (p :: ps) cs))

/-- Does the atom list match starting at some position of the text?
(`re.search` truthiness.) -/
def reSearch (ps : List RAtom) : List Char → Bool
  | [] => reMatch ps []
  | c :: cs => reMatch ps (c :: cs) || reSearch ps cs

/-- `_RE_STATS = re.compile(r'\|\w+\|\w\|.+\|.+\|\d+\|\d+\|')` -/
def statsPat : List RAtom :=
  [.lit '|', .wPlus, .lit '|', .wOne, .lit '|', .aPlus, .lit '|', .aPlus,
   .lit '|', .dPlus, .lit '|', .dPlus, .lit '|']

/-- `_RE_GERMLINE_STATS = re.compile(r'\|\w+\|.+\|\d\.\d+\|.+\|\d\.\d+\|')` -/
def germPat : List RAtom :=
  [.lit '|', .wPlus, .lit '|', .aPlus, .lit '|', .dOne, .lit '.', .dPlus,
   .lit '|', .aPlus, .lit '|', .dOne, .lit '.', .dPlus, .lit '|']

/-! ### Byte-level file access -/

/-- The prefix of the remaining bytes up to and including the first newline. -/
def takeLine : List Char → List Char
  | [] => []
  | c :: cs => if c = '\n' then [c] else c :: takeLine cs

/-- `handle.readline()` at byte offset `p`; `[]` models the empty string
returned at end of file. -/
def readLine (f : Chars) (p : Nat) : Chars := takeLine (f.drop p)

/-- Lines obtained by repeated `readline` from offset `p` until end of file.
`fuel` bounds the iteration count; every call through `linesFrom` supplies
enough fuel for the loop to reach end of file. -/
def linesFromGo (f : Chars) : Nat → Nat → List Chars
  | 0, _ => []
  | fuel + 1, p =>
    let line := readLine f p
    if line.isEmpty then [] else line :: linesFromGo f fuel (p + line.length)

def linesFrom (f : Chars) (p : Nat) : List Chars := linesFromGo f (f.length + 1) p

/-! ### Result model

Only the attributes the two parsers actually write are modelled.  Attributes
that a parser sets only on some paths (`scheme`, germline fields, ...) are
`Option`-valued: `none` means the attribute was never set on the object.
Float-valued attributes (`evalue`, `bitscore`) keep the validated source
token.  `QueryResult.id` follows the collaborator rule of the container
library: a `QueryResult` built from hits takes its id from the hits' shared
`query_id`. -/

inductive PyErr
  | assertionError
  | nameError
  | indexError
  | valueError
deriving Repr, DecidableEq

/-- Models `Bio.SeqFeature.SeqFeature` with a `FeatureLocation`: only the
fields the parser writes. `qualifiers` is the dictionary as an insertion-order
association list, values kept as text. -/
structure SeqFeature where
  locStart : Int
  locEnd : Int
  ftype : Chars
  qualifiers : List (Chars × Chars)
deriving Repr, DecidableEq

/-- Models `HSPFragment` together with the attributes the parsers set on its
`query` sequence object (`features`, `letter_annotations`, `description`). -/
structure HSPFragment where
  query_seq : Chars
  hit_id : Chars
  query_id : Chars
  query_start : Int
  query_end : Int
  hit_start : Int
  hit_end : Int
  features : List SeqFeature
  letter_annots : List (Chars × List Chars)
  query_description : Option Chars
deriving Repr, DecidableEq

structure HSP where
  fragments : List HSPFragment
  evalue : Chars
  bitscore : Chars
deriving Repr, DecidableEq

structure Hit where
  hsps : List HSP
  id : Chars
  query_id : Chars
  description : Chars
  query_description : Option Chars
deriving Repr, DecidableEq

structure QueryResult where
  hits : List Hit
  id : Chars
  program : Chars
  version : Chars
  target : Chars
  description : Chars
  scheme : Option Chars := none
  chain_type : Option Chars := none
  species : Option Chars := none
  species_germline : Option Chars := none
  v_gene : Option Chars := none
  v_identity : Option Chars := none
  j_gene : Option Chars := none
  j_identity : Option Chars := none
  input_sequence : Option Chars := none
deriving Repr, DecidableEq

/-! ### `AnarciNumParser._parse_qresult`

The generator's loop body is one step of a state machine; the state collects
the Python locals of `_parse_qresult`.  Locals that may be read before ever
being assigned are `Option`-valued, with `none` meaning "unbound"
(`NameError` on read).  The comment preceding each state field names the
Python local it models. -/

structure NumState where
  sequence : Chars
  annots : List Chars
  feature_lst : List SeqFeature
  state : Nat
  assign_germline : Bool
  residue_counter : Nat
  query_id : Option Chars
  query_description : Option Chars
  scheme : Option Chars
  species : Option Chars
  chain_type : Option Chars
  evalue : Option Chars
  score : Option Chars
  seqstart_index : Option Int
  seqend_index : Option Int
  hit_id : Option Chars
  species_germline : Option Chars
  v_gene : Option Chars
  v_identity : Option Chars
  j_gene : Option Chars
  j_identity : Option Chars
deriving Repr, DecidableEq

def numInit : NumState :=
  { sequence := [], annots := [], feature_lst := [], state := 0,
    assign_germline := false, residue_counter := 0,
    query_id := none, query_description := none, scheme := none,
    species := none, chain_type := none, evalue := none, score := none,
    seqstart_index := none, seqend_index := none, hit_id := none,
    species_germline := none, v_gene := none, v_identity := none,
    j_gene := none, j_identity := none }

/-- `# reset for next query result` (lines 107-111): note that
`assign_germline` and the statistics locals are not reset. -/
def numReset (st : NumState) : NumState :=
  { st with sequence := [], annots := [], feature_lst := [],
            residue_counter := 0, state := 0 }

/-- The hit-less `QueryResult` of the `else` branch at the terminator. -/
def emptyNumQResult (qid qd : Chars) : QueryResult :=
  { hits := [], id := qid, program := ("ANARCI".toList),
    version := ("1.3".toList), target := ("NCBI protein database".toList),
    description := qd }

/-- The `//` branch of `AnarciNumParser._parse_qresult` (lines 57-111). -/
def numTerm (st : NumState) : Except PyErr (NumState × Option QueryResult) :=
  if st.sequence.isEmpty then
    match st.query_id, st.query_description with
    | some qid, some qd => .ok (numReset st, some (emptyNumQResult qid qd))
    | _, _ => .error .nameError
  else
    match st.hit_id, st.query_id, st.seqstart_index, st.evalue, st.score,
          st.chain_type, st.species, st.scheme, st.query_description with
    | some hid, some qid, some sst, some ev, some sc, some ct, some sp,
      some sch, some qd =>
      let summary : SeqFeature :=
        { locStart := sst, locEnd := st.residue_counter,
          ftype := ("ANARCI_hit".toList),
          qualifiers := [(("sequence".toList), st.sequence),
                         (("evalue".toList), ev),
                         (("bitscore".toList), sc),
                         (("chain_type".toList), ct),
                         (("species".toList), sp)] }
      let frag : HSPFragment :=
        { query_seq := st.sequence, hit_id := hid, query_id := qid,
          query_start := sst, query_end := st.residue_counter,
          hit_start := 0, hit_end := 0,
          features := st.feature_lst ++ [summary],
          letter_annots := [(sch, st.annots)],
          query_description := none }
      let hsp : HSP := { fragments := [frag], evalue := ev, bitscore := sc }
      let hit : Hit :=
        { hsps := [hsp], id := hid, query_id := qid, description := [],
          query_description := none }
      let base : QueryResult :=
        { hits := [hit], id := qid, program := ("ANARCI".toList),
          version := ("1.3".toList),
          target := ("NCBI protein database".toList), description := qd,
          scheme := some sch, chain_type := some ct, species := some sp }
      if st.assign_germline then
        match st.species_germline, st.v_gene, st.v_identity, st.j_gene,
              st.j_identity with
        | some sg, some vg, some vi, some jg, some ji =>
          .ok (numReset st,
               some { base with species_germline := some sg,
                                v_gene := some vg, v_identity := some vi,
                                j_gene := some jg, j_identity := some ji })
        | _, _, _, _, _ => .error .nameError
      else .ok (numReset st, some base)
    | _, _, _, _, _, _, _, _, _ => .error .nameError

/-- The comment branch (`line[0] == '#'`, lines 114-147). -/
def numComment (st : NumState) (line : Chars) : Except PyErr NumState :=
  if st.state = 0 then
    let toks := pySplit line
    if (toks.drop 1).take 2 = [("Input".toList), ("sequence".toList)] then
      .ok { st with query_id := some ("<unknown id>".toList),
                    query_description := some [], state := 1 }
    else
      match toks.get? 1 with
      | some t1 =>
        .ok { st with query_id := some t1,
                      query_description := some (joinSpace (toks.drop 2)),
                      state := 1 }
      | none => .error .indexError
  else if pyStartswith line ("# Scheme = ".toList) then
    match (pySplit line).getLast? with
    | some t => .ok { st with scheme := some t }
    | none => .error .indexError
  else if reSearch statsPat line then
    let ps := pySplitChar line '|'
    match ps.get? 1, ps.get? 2, ps.get? 3, ps.get? 4, ps.get? 5, ps.get? 6 with
    | some sp, some ct, some ev, some sc, some sst, some sen =>
      if pyFloatOk ev && pyFloatOk sc then
        match pyInt? sst, pyInt? sen with
        | some i5, some i6 =>
          .ok { st with species := some sp, chain_type := some ct,
                        evalue := some ev, score := some sc,
                        seqstart_index := some i5, seqend_index := some i6,
                        hit_id := some (sp ++ '_' :: ct) }
        | _, _ => .error .valueError
      else .error .valueError
    | _, _, _, _, _, _ => .error .indexError
  else if reSearch germPat line then
    let ps := pySplitChar line '|'
    match ps.get? 1, ps.get? 2, ps.get? 3, ps.get? 4, ps.get? 5 with
    | some a, some b, some c, some d, some e =>
      .ok { st with assign_germline := true, species_germline := some a,
                    v_gene := some b, v_identity := some c, j_gene := some d,
                    j_identity := some e }
    | _, _, _, _, _ => .error .indexError
  else .ok st

/-- The residue-row branch (lines 149-169).  Note the gap test reads
`line[2]`, the third whitespace token. -/
def numResidue (st : NumState) (line : Chars) : Except PyErr NumState :=
  let toks := pySplit line
  match toks.get? 2 with
  | none => .error .indexError
  | some t2 =>
    if t2 = ('-' :: []) then .ok st
    else
      match toks.get? 1, toks.getLast? with
      | some t1, some tlast =>
        let annotv : Chars := if toks.length = 4 then t1 ++ pyLower t2 else t1
        let residue := pyUpper tlast
        match st.seqstart_index, st.scheme with
        | some sst, some sch =>
          let feat : SeqFeature :=
            { locStart := sst + st.residue_counter,
              locEnd := sst + st.residue_counter + 1,
              ftype := sch,
              qualifiers := [(("residue".toList), residue),
                             (("label".toList), residue ++ annotv),
                             (("ANARCI_".toList) ++ sch ++ ("_num".toList),
                              annotv)] }
          .ok { st with sequence := st.sequence ++ residue,
                        annots := st.annots ++ [annotv],
                        feature_lst := st.feature_lst ++ [feat],
                        residue_counter := st.residue_counter + 1,
                        state := 1 }
        | _, _ => .error .nameError
      | _, _ => .error .indexError

/-- One iteration of the `for line in self.handle` loop of
`AnarciNumParser._parse_qresult` (lines 54-169): blank-line assertion, then
terminator / comment / residue-row dispatch. -/
def numStep (st : NumState) (line : Chars) :
    Except PyErr (NumState × Option QueryResult) :=
  if isBlank line then .error .assertionError
  else if isTerm line then numTerm st
  else if line.head? = some '#' then
    match numComment st line with
    | .ok st1 => .ok (st1, none)
    | .error e => .error e
  else
    match numResidue st line with
    | .ok st1 => .ok (st1, none)
    | .error e => .error e

/-- Run the numbered parser's loop over a list of lines, returning the final
state, the yielded `QueryResult`s (in order) and the error that aborted the
generator, if any.  When the lines are exhausted the `for` loop ends and the
generator finishes normally, silently discarding any accumulated state. -/
def numRunSt (st : NumState) :
    List Chars → NumState × List QueryResult × Option PyErr
  | [] => (st, [], none)
  | l :: ls =>
    match numStep st l with
    | .error e => (st, [], some e)
    | .ok (st1, out) =>
      let r := numRunSt st1 ls
      (r.1, out.elim r.2.1 (fun q => q :: r.2.1), r.2.2)

def numRun (st : NumState) (lines : List Chars) :
    List QueryResult × Option PyErr :=
  (numRunSt st lines).2

/-- `AnarciNumParser.__init__` plus full iteration: the constructor reads the
first line and asserts it does not start with the hits-format signature;
iteration stops at once on an empty file, otherwise the generator seeks back
to offset 0 and consumes every line. -/
def AnarciNumParser.parse (f : Chars) : List QueryResult × Option PyErr :=
  if pyStartswith (readLine f 0) ("# Hit file for ANARCI".toList) then
    ([], some .assertionError)
  else if (readLine f 0).isEmpty then ([], none)
  else numRun numInit (linesFrom f 0)

/-! ### `AnarciHitsParser._parse_qresult`

Same modelling conventions.  The `while True` loop calls `readline` before
testing for end of file, and the blank-line assertion precedes the
end-of-file test, so reaching end of file always trips the assertion; the
run function therefore reports how iteration ended alongside the yielded
records. -/

structure HitsState where
  state : Nat
  sequence : Chars
  hit_id : Chars
  hit_lst : List Hit
  query_id : Option Chars
  query_description : Option Chars
  qresult : Option QueryResult
deriving Repr, DecidableEq

def hitsInit : HitsState :=
  { state := 0, sequence := [], hit_id := [], hit_lst := [],
    query_id := none, query_description := none, qresult := none }

/-- The fixed column-header row of the hits format (line 83). -/
def colHdr : Chars := ("         id description".toList)

/-- `# reset for next QueryResult` (lines 67-70): `qresult`, `query_id` and
`query_description` persist. -/
def hitsReset (st : HitsState) : HitsState :=
  { st with hit_lst := [], sequence := [], hit_id := [], state := 0 }

/-- The hit-less `QueryResult` of the hits parser's terminator branch. -/
def emptyHitsQResult (qid qd : Chars) : QueryResult :=
  { hits := [], id := qid, program := ("ANARCI".toList),
    version := ("1.3".toList), target := ("NCBI protein database".toList),
    description := qd }

/-- One iteration of the `while True` loop body of
`AnarciHitsParser._parse_qresult` (lines 55-119), after the blank-line
assertion. -/
def hitsStep (st : HitsState) (line : Chars) :
    Except PyErr (HitsState × Option QueryResult) :=
  if isTerm line then
    if !st.hit_id.isEmpty then
      match st.qresult with
      | some q => .ok (hitsReset st, some q)
      | none => .error .nameError
    else
      match st.query_id, st.query_description with
      | some qid, some qd => .ok (hitsReset st, some (emptyHitsQResult qid qd))
      | _, _ => .error .nameError
  else if st.state = 0 then
    if pyStartswith line ("NAME".toList) then
      let toks := pySplit line
      match toks.get? 1 with
      | some t1 =>
        .ok ({ st with query_id := some t1,
                       query_description := some (joinSpace (toks.drop 2)) },
             none)
      | none => .error .indexError
    else if pyStartswith line ("SEQUENCE".toList) then
      match (pySplit line).getLast? with
      | some t => .ok ({ st with sequence := st.sequence ++ t }, none)
      | none => .error .indexError
    else if pyStartswith line colHdr then
      .ok ({ st with state := 1 }, none)
    else .ok (st, none)
  else
    let toks := pySplit line
    match toks.get? 0 with
    | none => .error .indexError
    | some t0 =>
      match pySplitChar t0 '_' with
      | [sp, ct] =>
        match toks.get? 1, toks.get? 2, toks.get? 4, toks.get? 5 with
        | some ev, some sc, some t4, some t5 =>
          if pyFloatOk ev && pyFloatOk sc then
            match pyInt? t4, pyInt? t5 with
            | some sst, some sen =>
              match st.query_id, st.query_description with
              | some qid, some qd =>
                let hid := sp ++ '_' :: ct
                let frag : HSPFragment :=
                  { query_seq := pySlice st.sequence sst sen, hit_id := hid,
                    query_id := qid, query_start := sst, query_end := sen,
                    hit_start := 0, hit_end := 0, features := [],
                    letter_annots := [], query_description := some qd }
                let hsp : HSP :=
                  { fragments := [frag], evalue := ev, bitscore := sc }
                let hit : Hit :=
                  { hsps := [hsp], id := hid, query_id := qid,
                    description := [], query_description := some qd }
                let q : QueryResult :=
                  { hits := st.hit_lst ++ [hit], id := qid,
                    program := ("Anarci".toList), version := ("1.3".toList),
                    target := ("NCBI protein database".toList),
                    description := qd, chain_type := some ct,
                    species := some sp, input_sequence := some st.sequence }
                .ok ({ st with hit_id := hid, hit_lst := st.hit_lst ++ [hit],
                               qresult := some q }, none)
              | _, _ => .error .nameError
            | _, _ => .error .valueError
          else .error .valueError
        | _, _, _, _ => .error .indexError
      | _ => .error .valueError

/-- Run the hits parser's loop body over a list of lines (a mid-file
segment): final state, yields, and the error aborting the segment, if any. -/
def hitsRunSt (st : HitsState) :
    List Chars → HitsState × List QueryResult × Option PyErr
  | [] => (st, [], none)
  | l :: ls =>
    if isBlank l then (st, [], some .assertionError)
    else
      match hitsStep st l with
      | .error e => (st, [], some e)
      | .ok (st1, out) =>
        let r := hitsRunSt st1 ls
        (r.1, out.elim r.2.1 (fun q => q :: r.2.1), r.2.2)

/-- Full iteration of the hits parser over a file's lines: after the last
line, `readline` returns the empty string, whose `strip()` is falsy, so the
blank-line assertion fires before the `if not line: break` can run. -/
def hitsRun (st : HitsState) (lines : List Chars) :
    List QueryResult × Option PyErr :=
  let r := hitsRunSt st lines
  (r.2.1, some (r.2.2.getD .assertionError))

/-- `AnarciHitsParser.__init__` plus full iteration: the constructor only
reads the first line (no signature assertion); iteration stops at once on an
empty file, otherwise the generator seeks back to offset 0 and loops. -/
def AnarciHitsParser.parse (f : Chars) : List QueryResult × Option PyErr :=
  if (readLine f 0).isEmpty then ([], none)
  else hitsRun hitsInit (linesFrom f 0)

/-! ### The indexers

`AnarciNumIndexer._qresult_index` scans the file byte by byte with
`readline`/`tell`; `get_raw` (identical in both indexer classes) seeks to an
offset and accumulates raw lines until a terminator line, returning `None`
(modelled `none`) if end of file is reached first.  The loops are driven by a
fuel parameter that every wrapper seeds with `f.length + 1`, which is enough
for the loop to reach end of file since every iteration consumes at least one
byte. -/

/-- Loop of `AnarciNumIndexer._qresult_index` (lines 201-215); returns the
yielded `(key, start_offset, length)` triples and the error aborting the
scan, if any. -/
def numIndexGo (f : Chars) :
    Nat → Nat → Option Chars → Nat → Nat →
    List (Option Chars × Nat × Nat) × Option PyErr
  | 0, _, _, _, _ => ([], none)
  | fuel + 1, p, key, start, state =>
    let line := readLine f p
    let endp := p + line.length
    if line.isEmpty then ([], none)
    else if line.head? = some '#' then
      if state = 0 then
        match (pySplit line).get? 1 with
        | some k => numIndexGo f fuel endp (some k) start 1
        | none => ([], some .indexError)
      else numIndexGo f fuel endp key start state
    else if isTerm line then
      let r := numIndexGo f fuel endp key endp 0
      ((key, start, endp - start) :: r.1, r.2)
    else numIndexGo f fuel endp key start 0

/-- `AnarciNumIndexer._qresult_index`: scan from offset 0 in the query-id
state with no key bound. -/
def AnarciNumIndexer.qresultIndex (f : Chars) :
    List (Option Chars × Nat × Nat) × Option PyErr :=
  numIndexGo f (f.length + 1) 0 none 0 0

/-- Loop shared verbatim by `AnarciNumIndexer.get_raw` and
`AnarciHitsIndexer.get_raw` (the Python bodies are identical): accumulate
lines from the offset; return the accumulation once a terminator line has
been read; fall off the loop (returning `None`) at end of file. -/
def getRawGo (f : Chars) : Nat → Nat → Chars → Option Chars
  | 0, _, _ => none
  | fuel + 1, p, acc =>
    let line := readLine f p
    if line.isEmpty then none
    else if isTerm line then some (acc ++ line)
    else getRawGo f fuel (p + line.length) (acc ++ line)

/-- `AnarciNumIndexer.get_raw(offset)` (lines 217-229). -/
def AnarciNumIndexer.get_raw (f : Chars) (offset : Nat) : Option Chars :=
  getRawGo f (f.length + 1) offset []

/-- `AnarciHitsIndexer.get_raw(offset)` (lines 158-170); the body is
byte-for-byte the same as the numbered indexer's. -/
def AnarciHitsIndexer.get_raw (f : Chars) (offset : Nat) : Option Chars :=
  getRawGo f (f.length + 1) offset []

/-- `AnarciHitsIndexer.__init__` (lines 126-130): raises unless the first
line equals the hits signature exactly. -/
def AnarciHitsIndexer.openIndex (f : Chars) : Except PyErr Unit :=
  if readLine f 0 = ("# Hit file for ANARCI\n".toList) then .ok ()
  else .error .assertionError

/-- `AnarciNumIndexer.__init__` (lines 176-179): raises if the first line
equals the hits signature exactly. -/
def AnarciNumIndexer.openIndex (f : Chars) : Except PyErr Unit :=
  if readLine f 0 = ("# Hit file for ANARCI\n".toList) then
    .error .assertionError
  else .ok ()

/-! ### Auxiliary predicates and example inputs used by the theorems -/

/-- Is the last whitespace token of the line (the residue token of a residue
row) a single character?  Holds for every residue row of the real numbered
format, whose residue tokens are one amino-acid letter or `-`. -/
def lastTokLen1 (l : Chars) : Bool :=
  match (pySplit l).getLast? with
  | some t => t.length = 1
  | none => true

/-- First fragment of the first hit of the first record, when present. -/
def firstFrag (qs : List QueryResult) : Option HSPFragment :=
  ((qs.head?.bind (fun q => q.hits.head?)).bind
    (fun h => h.hsps.head?)).bind (fun s => s.fragments.head?)

/-- A numbered record with germline statistics. -/
def c1Rec1 : Chars :=
  ("# A a\n# Scheme = kabat\n#|mouse|H|1.5e-53|171.1|0|2|\n#|human|IGHV1|0.92|IGHJ2|1.00|\nH 1 Q\n//\n".toList)

/-- A numbered record without any germline statistics line. -/
def c1Rec2 : Chars :=
  ("# B b\n# Scheme = kabat\n#|rat|K|1.0e-10|50.0|0|1|\nH 1 V\n//\n".toList)

def c1File : Chars := c1Rec1 ++ c1Rec2

/-- A numbered record whose statistics line reports `seqstart_index = 20`
but which carries two residue rows. -/
def c2File : Chars :=
  ("# A a\n# Scheme = kabat\n#|mouse|H|1.5e-53|171.1|20|135|\nH 1 Q\nH 2 V\n//\n".toList)

/-- A well-formed hits file: signature line, one record, terminated. -/
def c3File : Chars :=
  ("# Hit file for ANARCI\nNAME Q1 d\n//\n".toList)

/-- A numbered record with a statistics line. -/
def c4Rec1 : Chars :=
  ("# A a\n# Scheme = kabat\n#|mouse|H|1.5e-53|171.1|0|2|\nH 1 Q\n//\n".toList)

/-- A numbered record with a residue row but no statistics row at all. -/
def c4Rec2 : Chars :=
  ("# B b\nH 1 V\n//\n".toList)

/-- Record with statistics followed by a record with a residue row but no
statistics row at all. -/
def c4File : Chars := c4Rec1 ++ c4Rec2

/-- A record containing a four-token residue row whose residue token (the
last token) is the gap indicator. -/
def c5File : Chars :=
  ("# A a\n# Scheme = kabat\n#|mouse|H|1.5e-53|171.1|0|3|\nH 1 Q\nH 100 A -\nH 2 V\n//\n".toList)

/-- A numbered file whose final (and only) record has content but no
terminator line. -/
def c6File : Chars :=
  ("# A a\n# Scheme = kabat\n#|mouse|H|1.5e-53|171.1|0|2|\nH 1 Q\n".toList)

/-- A hits-layout file that does not begin with the hits signature line. -/
def c7File : Chars :=
  ("NAME Q1 d\n//\n".toList)

/-- A numbered file whose single record reports `Input sequence` instead of
an identifier. -/
def c8File : Chars :=
  ("# Input sequence\n//\n".toList)

/-- Default record used when a witness projects out of a list. -/
def dfltQ : QueryResult := emptyNumQResult [] []

/-- `ReachesNT f s p`: repeated `readline` from offset `s` arrives at offset
`p`, every line read on the way being nonempty and not a terminator line.
This is the invariant linking the index scan's saved `start_offset` to its
current position. -/
inductive ReachesNT (f : Chars) : Nat → Nat → Prop
  | refl (p : Nat) : ReachesNT f p p
  | step {p q : Nat} : (readLine f p).isEmpty = false →
      isTerm (readLine f p) = false →
      ReachesNT f (p + (readLine f p).length) q → ReachesNT f p q

/-! ### Well-formed numbered records, for the key/id correspondence (C8) -/

/-- A proper text line: nonempty, ending in the only newline it contains. -/
def isLine : Chars → Bool
  | [] => false
  | [c] => c = '\n'
  | c :: cs => !(c == '\n') && isLine cs

/-- The line is the `# Scheme = ...` marker. -/
def isSchemeLine (l : Chars) : Bool := pyStartswith l ("# Scheme = ".toList)

/-- The line is recognised as a statistics marker (checked after the scheme
marker, as in the parser's `elif` chain). -/
def isStatsLine (l : Chars) : Bool :=
  !(isSchemeLine l) && reSearch statsPat l

/-- The line reaches the germline branch of the annotation-state `elif`
chain: a comment line that is neither the scheme marker nor a statistics
marker and matches the germline-statistics pattern. -/
def isGermMarker (l : Chars) : Bool :=
  (l.head? == some '#') && !(isSchemeLine l) && !(reSearch statsPat l) &&
  reSearch germPat l

/-- The statistics fields of a statistics line parse: the six `|`-separated
fields exist, the e-value and score pass `float()` and the two indices pass
`int()`. -/
def statsLineOk (l : Chars) : Bool :=
  match (pySplitChar l '|').get? 1, (pySplitChar l '|').get? 2,
        (pySplitChar l '|').get? 3, (pySplitChar l '|').get? 4,
        (pySplitChar l '|').get? 5, (pySplitChar l '|').get? 6 with
  | some _, some _, some ev, some sc, some sst, some sen =>
    pyFloatOk ev && pyFloatOk sc && (pyInt? sst).isSome && (pyInt? sen).isSome
  | _, _, _, _, _, _ => false

/-- The germline fields of a germline-statistics line exist. -/
def germLineOk (l : Chars) : Bool :=
  match (pySplitChar l '|').get? 1, (pySplitChar l '|').get? 2,
        (pySplitChar l '|').get? 3, (pySplitChar l '|').get? 4,
        (pySplitChar l '|').get? 5 with
  | some _, some _, some _, some _, some _ => true
  | _, _, _, _, _ => false

/-- A comment line that the annotation-state `elif` chain processes without
an exception. -/
def commentOk (l : Chars) : Bool :=
  if isSchemeLine l then ((pySplit l).getLast?).isSome
  else if reSearch statsPat l then statsLineOk l
  else if reSearch germPat l then germLineOk l
  else true

/-- A residue row: not a comment, not a terminator, at least three
whitespace tokens. -/
def rowOk (l : Chars) : Bool :=
  !(l.head? == some '#') && !(isTerm l) && ((pySplit l).get? 2).isSome

/-- A residue row skipped by the gap test. -/
def isGapRow (l : Chars) : Bool := (pySplit l).get? 2 == some ('-' :: [])

/-- One record of a well-formed numbered file: a header comment, further
comment lines, residue rows, and the terminator line. -/
structure NumRecord where
  header : Chars
  comments : List Chars
  rows : List Chars
  term : Chars
deriving Repr, DecidableEq

def NumRecord.lines (r : NumRecord) : List Chars :=
  r.header :: (r.comments ++ (r.rows ++ [r.term]))

def NumRecord.bytes (r : NumRecord) : Chars := r.lines.flatten

/-- The record key: second whitespace token of the header line. -/
def headerKey (r : NumRecord) : Chars := ((pySplit r.header).get? 1).getD []

/-- Well-formedness of one record (the amended C8 additionally requires the
header to carry a real id, i.e. not to report `Input sequence`). -/
def WFrec (r : NumRecord) : Bool :=
  isLine r.header && (r.header.head? == some '#') &&
  !(pyStartswith r.header ("# Hit file for ANARCI".toList)) &&
  ((pySplit r.header).get? 1).isSome &&
  !(((pySplit r.header).drop 1).take 2 ==
    [("Input".toList), ("sequence".toList)]) &&
  r.comments.all (fun c => isLine c && (c.head? == some '#') && commentOk c) &&
  r.rows.all (fun l => isLine l && rowOk l) &&
  (r.rows.any (fun l => !(isGapRow l)) →
    (r.comments.any isStatsLine && r.comments.any isSchemeLine)) &&
  isLine r.term && isTerm r.term

/-- All six statistics locals are bound. -/
def statsSome (st : NumState) : Prop :=
  st.species.isSome = true ∧ st.chain_type.isSome = true ∧
  st.evalue.isSome = true ∧ st.score.isSome = true ∧
  st.seqstart_index.isSome = true ∧ st.hit_id.isSome = true

/-- If the germline flag is set, the five germline locals are bound. -/
def germInv (st : NumState) : Prop :=
  st.assign_germline = true →
    st.species_germline.isSome = true ∧ st.v_gene.isSome = true ∧
    st.v_identity.isSome = true ∧ st.j_gene.isSome = true ∧
    st.j_identity.isSome = true

/-- Total number of lines of a record list. -/
def totLines (rs : List NumRecord) : Nat :=
  (rs.map (fun r => r.lines.length)).sum

/-- A two-record well-formed file used by the C8 witness. -/
def c8wRec1 : NumRecord :=
  { header := ("# A a\n".toList),
    comments := [("# Scheme = kabat\n".toList),
                 ("#|mouse|H|1.5e-53|171.1|0|2|\n".toList)],
    rows := [("H 1 Q\n".toList), ("H 100 -\n".toList)],
    term := ("//\n".toList) }

def c8wRec2 : NumRecord :=
  { header := ("# B\n".toList), comments := [], rows := [],
    term := ("//\n".toList) }

/-- The lines of a well-formed numbered file with records `rs`, and its byte
content. -/
def recLines (rs : List NumRecord) : List Chars :=
  (rs.map NumRecord.lines).flatten

def recBytes (rs : List NumRecord) : Chars := (recLines rs).flatten

/-! ## Theorems

First a toolbox of inversion lemmas about the single-step functions, then
the claim theorems. -/

theorem numComment_eff {st : NumState} {l : Chars} {st1 : NumState}
    (h : numComment st l = .ok st1) :
    st1.sequence = st.sequence ∧ st1.annots = st.annots ∧
    st1.feature_lst = st.feature_lst ∧
    st1.residue_counter = st.residue_counter := by
  unfold numComment at h
  dsimp only at h
  repeat' split at h
  all_goals
    first
    | (injection h with h; subst h; exact ⟨rfl, rfl, rfl, rfl⟩)
    | simp at h

/-- A successful comment step either leaves all six germline locals unchanged
or sets the flag together with all five germline value locals. -/
theorem numComment_germ {st : NumState} {l : Chars} {st1 : NumState}
    (h : numComment st l = .ok st1) :
    (st1.assign_germline = st.assign_germline ∧
     st1.species_germline = st.species_germline ∧
     st1.v_gene = st.v_gene ∧ st1.v_identity = st.v_identity ∧
     st1.j_gene = st.j_gene ∧ st1.j_identity = st.j_identity) ∨
    (st1.assign_germline = true ∧ st1.species_germline.isSome = true ∧
     st1.v_gene.isSome = true ∧ st1.v_identity.isSome = true ∧
     st1.j_gene.isSome = true ∧ st1.j_identity.isSome = true) := by
  unfold numComment at h
  dsimp only at h
  repeat' split at h
  all_goals
    first
    | (injection h with h; subst h; simp)
    | simp at h

/-- The residue-row branch changes only the accumulators: every other local
is untouched. -/
theorem numResidue_pres {st : NumState} {l : Chars} {st1 : NumState}
    (h : numResidue st l = .ok st1) :
    st1.assign_germline = st.assign_germline ∧
    st1.species_germline = st.species_germline ∧
    st1.v_gene = st.v_gene ∧ st1.v_identity = st.v_identity ∧
    st1.j_gene = st.j_gene ∧ st1.j_identity = st.j_identity ∧
    st1.query_id = st.query_id ∧
    st1.query_description = st.query_description ∧
    st1.scheme = st.scheme ∧ st1.species = st.species ∧
    st1.chain_type = st.chain_type ∧ st1.evalue = st.evalue ∧
    st1.score = st.score ∧ st1.seqstart_index = st.seqstart_index ∧
    st1.seqend_index = st.seqend_index ∧ st1.hit_id = st.hit_id := by
  unfold numResidue at h
  dsimp only at h
  repeat' split at h
  all_goals
    first
    | (injection h with h; subst h; simp)
    | simp at h

/-- A residue row whose third whitespace token is the gap indicator leaves
the state completely unchanged. -/
theorem numResidue_gap {st : NumState} {l : Chars}
    (h2 : (pySplit l).get? 2 = some ('-' :: [])) :
    numResidue st l = .ok st := by
  unfold numResidue
  dsimp only
  rw [h2]
  simp

/-- The residue-row branch keeps `len(sequence) = len(annotation) =
residue_counter` when the residue token is one character long. -/
theorem numResidue_len {st : NumState} {l : Chars} {st1 : NumState}
    (h : numResidue st l = .ok st1) (h1 : lastTokLen1 l = true)
    (hs : st.sequence.length = st.residue_counter)
    (ha : st.annots.length = st.residue_counter) :
    st1.sequence.length = st1.residue_counter ∧
    st1.annots.length = st1.residue_counter := by
  unfold numResidue at h
  unfold lastTokLen1 at h1
  dsimp only at h
  repeat' split at h
  all_goals
    first
    | (injection h with h; subst h; simp_all [pyUpper])
    | simp at h

/-- The terminator branch always resets the accumulators and always yields a
record. -/
theorem numTerm_shape {st : NumState} {st1 : NumState}
    {out : Option QueryResult}
    (h : numTerm st = .ok (st1, out)) :
    st1 = numReset st ∧ out.isSome = true := by
  unfold numTerm at h
  dsimp only at h
  repeat' split at h
  all_goals
    first
    | (injection h with h; injection h with ha hb; subst ha; subst hb; simp)
    | simp at h

/-- A terminator reached with an empty accumulated sequence yields the
hit-less record: no hits and no `scheme`/`chain_type`/`species`/germline
attributes. -/
theorem numTerm_empty {st : NumState} {st1 : NumState} {q : QueryResult}
    (h : numTerm st = .ok (st1, some q)) (hs : st.sequence = []) :
    q.hits = [] ∧ q.scheme = none ∧ q.chain_type = none ∧
    q.species = none ∧ q.species_germline = none ∧ q.v_gene = none ∧
    q.v_identity = none ∧ q.j_gene = none ∧ q.j_identity = none := by
  unfold numTerm at h
  dsimp only at h
  repeat' split at h
  all_goals
    first
    | (injection h with h; injection h with ha hb; injection hb with hb;
       subst hb; simp_all [emptyNumQResult])
    | simp_all

/-- Any yielded record has the five germline attributes all set or all unset,
and they can only be set on a record that owns a hit. -/
theorem numTerm_five {st : NumState} {st1 : NumState} {q : QueryResult}
    (h : numTerm st = .ok (st1, some q)) :
    (q.species_germline.isSome = q.v_gene.isSome ∧
     q.species_germline.isSome = q.v_identity.isSome ∧
     q.species_germline.isSome = q.j_gene.isSome ∧
     q.species_germline.isSome = q.j_identity.isSome) ∧
    (q.species_germline.isSome = true → q.hits ≠ []) := by
  unfold numTerm at h
  dsimp only at h
  repeat' split at h
  all_goals
    first
    | (injection h with h; injection h with ha hb; injection hb with hb;
       subst hb; simp [emptyNumQResult])
    | simp_all

/-- Any fragment of a yielded record satisfies `query_end = len(sequence) =
len(annotation)` provided the accumulators were balanced. -/
theorem numTerm_len {st : NumState} {st1 : NumState} {q : QueryResult}
    (h : numTerm st = .ok (st1, some q))
    (hs : st.sequence.length = st.residue_counter)
    (ha : st.annots.length = st.residue_counter) :
    ∀ ht ∈ q.hits, ∀ s ∈ ht.hsps, ∀ fr ∈ s.fragments,
      fr.query_end = (fr.query_seq.length : Int) ∧
      ∀ pr ∈ fr.letter_annots, pr.2.length = fr.query_seq.length := by
  unfold numTerm at h
  dsimp only at h
  repeat' split at h
  all_goals
    first
    | (injection h with h; injection h with hx hb; injection hb with hb;
       subst hb; simp_all [emptyNumQResult])
    | simp_all

/-- The yielded record's id is the `query_id` local at the terminator. -/
theorem numTerm_id {st : NumState} {st1 : NumState} {q : QueryResult}
    (h : numTerm st = .ok (st1, some q)) :
    st.query_id = some q.id := by
  unfold numTerm at h
  dsimp only at h
  repeat' split at h
  all_goals
    first
    | (injection h with h; injection h with hx hb; injection hb with hb;
       subst hb; simp_all [emptyNumQResult])
    | simp_all

/-- A loop step yields a record only on a terminator line. -/
theorem numStep_out_none {st : NumState} {l : Chars} {st1 : NumState}
    {out : Option QueryResult}
    (h : numStep st l = .ok (st1, out)) (ht : isTerm l = false) :
    out = none := by
  unfold numStep at h
  repeat' split at h
  all_goals
    first
    | (injection h with h; injection h with ha hb; subst hb; rfl)
    | simp_all

/-- `assign_germline` is never cleared: once true it stays true across every
successful step (in particular across the per-record reset). -/
theorem numStep_germ_mono {st : NumState} {l : Chars} {st1 : NumState}
    {out : Option QueryResult}
    (h : numStep st l = .ok (st1, out)) (hg : st.assign_germline = true) :
    st1.assign_germline = true := by
  unfold numStep at h
  split at h
  · simp at h
  · split at h
    · obtain ⟨h1, -⟩ := numTerm_shape h
      subst h1
      simpa [numReset] using hg
    · split at h
      · rcases hc : numComment st l with e | st2 <;> rw [hc] at h
        · simp at h
        · injection h with h
          injection h with ha hb
          subst ha
          rcases numComment_germ hc with ⟨hg1, -⟩ | ⟨hg1, -⟩ <;> simp_all
      · rcases hc : numResidue st l with e | st2 <;> rw [hc] at h
        · simp at h
        · injection h with h
          injection h with ha hb
          subst ha
          have := (numResidue_pres hc).1
          simp_all

/-- A record is yielded by a step only through the terminator branch. -/
theorem numStep_some {st : NumState} {l : Chars} {st1 : NumState}
    {q : QueryResult}
    (h : numStep st l = .ok (st1, some q)) :
    numTerm st = .ok (st1, some q) := by
  unfold numStep at h
  split at h
  · simp at h
  · split at h
    · exact h
    · split at h
      · rcases hc : numComment st l with e | st2 <;> rw [hc] at h
        · simp at h
        · injection h with h
          injection h with ha hb
          simp at hb
      · rcases hc : numResidue st l with e | st2 <;> rw [hc] at h
        · simp at h
        · injection h with h
          injection h with ha hb
          simp at hb

/-- Every successful step keeps `len(sequence) = len(annotation) =
residue_counter`, provided each residue token is a single character. -/
theorem numStep_len {st : NumState} {l : Chars} {st1 : NumState}
    {out : Option QueryResult}
    (h : numStep st l = .ok (st1, out))
    (hc : l.head? = some '#' ∨ isTerm l = true ∨ lastTokLen1 l = true)
    (hs : st.sequence.length = st.residue_counter)
    (ha : st.annots.length = st.residue_counter) :
    st1.sequence.length = st1.residue_counter ∧
    st1.annots.length = st1.residue_counter := by
  unfold numStep at h
  split at h
  · simp at h
  · split at h
    · obtain ⟨h1, -⟩ := numTerm_shape h
      subst h1
      simp [numReset]
    · split at h
      · rcases hcm : numComment st l with e | st2 <;> rw [hcm] at h
        · simp at h
        · injection h with h
          injection h with h1 h2
          subst h1
          obtain ⟨e1, e2, -, e4⟩ := numComment_eff hcm
          rw [e1, e2, e4]
          exact ⟨hs, ha⟩
      · rename_i hterm hhash
        rcases hcm : numResidue st l with e | st2 <;> rw [hcm] at h
        · simp at h
        · injection h with h
          injection h with h1 h2
          subst h1
          have hl1 : lastTokLen1 l = true := by
            rcases hc with h' | h' | h'
            · exact absurd h' hhash
            · exact absurd h' hterm
            · exact h'
          exact numResidue_len hcm hl1 hs ha

/-- Any per-record property guaranteed by the terminator branch holds of
every record any run yields. -/
theorem numRunSt_yield_prop (P : QueryResult → Prop)
    (hP : ∀ (st st1 : NumState) (q : QueryResult),
      numTerm st = .ok (st1, some q) → P q) :
    ∀ (lines : List Chars) (st st2 : NumState) (qs : List QueryResult)
      (e : Option PyErr),
      numRunSt st lines = (st2, qs, e) → ∀ q ∈ qs, P q := by
  intro lines
  induction lines with
  | nil =>
    intro st st2 qs e h q hq
    unfold numRunSt at h
    simp at h
    obtain ⟨-, h2, -⟩ := h
    subst h2
    simp at hq
  | cons l ls ih =>
    intro st st2 qs e h q hq
    unfold numRunSt at h
    rcases hstep : numStep st l with e1 | p <;> rw [hstep] at h
    · simp at h
      obtain ⟨-, h2, -⟩ := h
      subst h2
      simp at hq
    · obtain ⟨st1, out⟩ := p
      dsimp only at h
      cases out with
      | none =>
        simp at h
        exact ih st1 st2 qs e h q hq
      | some q0 =>
        simp at h
        obtain ⟨-, h2, -⟩ := h
        subst h2
        rcases List.mem_cons.mp hq with hq1 | hq1
        · subst hq1
          exact hP st st1 q (numStep_some hstep)
        · exact ih st1 _ _ _ rfl q hq1

/-- Balanced-accumulator run lemma for the length properties. -/
theorem numRunSt_len (lines : List Chars) :
    ∀ (st st2 : NumState) (qs : List QueryResult) (e : Option PyErr),
      (∀ l ∈ lines,
        l.head? = some '#' ∨ isTerm l = true ∨ lastTokLen1 l = true) →
      st.sequence.length = st.residue_counter →
      st.annots.length = st.residue_counter →
      numRunSt st lines = (st2, qs, e) → ∀ q ∈ qs,
        ∀ ht ∈ q.hits, ∀ s ∈ ht.hsps, ∀ fr ∈ s.fragments,
          fr.query_end = (fr.query_seq.length : Int) ∧
          ∀ pr ∈ fr.letter_annots, pr.2.length = fr.query_seq.length := by
  induction lines with
  | nil =>
    intro st st2 qs e hcond hs ha h q hq
    unfold numRunSt at h
    simp at h
    obtain ⟨-, h2, -⟩ := h
    subst h2
    simp at hq
  | cons l ls ih =>
    intro st st2 qs e hcond hs ha h q hq
    unfold numRunSt at h
    rcases hstep : numStep st l with e1 | p <;> rw [hstep] at h
    · simp at h
      obtain ⟨-, h2, -⟩ := h
      subst h2
      simp at hq
    · obtain ⟨st1, out⟩ := p
      dsimp only at h
      have hinv := numStep_len hstep (hcond l (by simp)) hs ha
      have hcond1 : ∀ l1 ∈ ls,
          l1.head? = some '#' ∨ isTerm l1 = true ∨ lastTokLen1 l1 = true :=
        fun l1 hl1 => hcond l1 (by simp [hl1])
      cases out with
      | none =>
        simp at h
        exact ih st1 st2 qs e hcond1 hinv.1 hinv.2 h q hq
      | some q0 =>
        simp at h
        obtain ⟨-, h2, -⟩ := h
        subst h2
        rcases List.mem_cons.mp hq with hq1 | hq1
        · subst hq1
          exact numTerm_len (numStep_some hstep) hs ha
        · exact ih st1 _ _ _ hcond1 hinv.1 hinv.2 rfl q hq1

/-- A run over lines containing no terminator yields nothing. -/
theorem numRunSt_noterm (lines : List Chars) :
    ∀ (st : NumState), (∀ l ∈ lines, isTerm l = false) →
      (numRunSt st lines).2.1 = [] := by
  induction lines with
  | nil => intro st hcond; rfl
  | cons l ls ih =>
    intro st hcond
    unfold numRunSt
    rcases hstep : numStep st l with e1 | p
    · rfl
    · obtain ⟨st1, out⟩ := p
      dsimp only
      have hout : out = none := numStep_out_none hstep (hcond l (by simp))
      subst hout
      simp [ih st1 (fun l1 hl1 => hcond l1 (by simp [hl1]))]

theorem isTerm_head {l : Chars} (h : isTerm l = true) :
    l.head? = some '/' := by
  have h2 := of_decide_eq_true h
  cases l with
  | nil => simp at h2
  | cons c cs =>
    simp only [List.take_succ_cons, List.cons.injEq] at h2
    simp [h2.1]

/-- Unfolding equations for the run. -/
theorem numRunSt_cons_err {st : NumState} {l : Chars} {e : PyErr}
    (h : numStep st l = .error e) (ls : List Chars) :
    numRunSt st (l :: ls) = (st, [], some e) := by
  simp only [numRunSt, h]

theorem numRunSt_cons_ok {st st1 : NumState} {l : Chars}
    {out : Option QueryResult}
    (h : numStep st l = .ok (st1, out)) (ls : List Chars) :
    numRunSt st (l :: ls) =
      ((numRunSt st1 ls).1,
       out.elim (numRunSt st1 ls).2.1
         (fun q => q :: (numRunSt st1 ls).2.1),
       (numRunSt st1 ls).2.2) := by
  simp only [numRunSt, h]

/-- A successful comment step sets the germline flag exactly when it is
processed in the annotation state and reaches the germline branch; the flag
is never cleared. -/
theorem numComment_germ_iff {st : NumState} {l : Chars} {st1 : NumState}
    (h : numComment st l = .ok st1) (hh : l.head? = some '#') :
    st1.assign_germline = true ↔
      (st.assign_germline = true ∨
       (¬ st.state = 0 ∧ isGermMarker l = true)) := by
  unfold numComment at h
  dsimp only at h
  repeat' split at h
  all_goals
    first
    | (injection h with h; subst h; simp_all [isGermMarker, isSchemeLine])
    | simp at h

/-- After any successful loop step the germline flag is set iff it was set
before or the step processed a germline marker line in the annotation
state. -/
theorem numStep_germ_iff {st : NumState} {l : Chars} {st1 : NumState}
    {out : Option QueryResult} (h : numStep st l = .ok (st1, out)) :
    st1.assign_germline = true ↔
      (st.assign_germline = true ∨
       (¬ st.state = 0 ∧ isGermMarker l = true)) := by
  unfold numStep at h
  split at h
  · simp at h
  · split at h
    · rename_i hterm
      obtain ⟨h1, -⟩ := numTerm_shape h
      subst h1
      have hm : isGermMarker l = false := by
        unfold isGermMarker
        rw [isTerm_head hterm]
        rfl
      simp [numReset, hm]
    · split at h
      · rename_i hh
        rcases hc : numComment st l with e | st2 <;> rw [hc] at h
        · simp at h
        · injection h with h
          injection h with ha hb
          subst ha
          exact numComment_germ_iff hc hh
      · rename_i hh
        rcases hc : numResidue st l with e | st2 <;> rw [hc] at h
        · simp at h
        · injection h with h
          injection h with ha hb
          subst ha
          have hm : isGermMarker l = false := by
            unfold isGermMarker
            have hx : (l.head? == some '#') = false := by simpa using hh
            rw [hx]
            rfl
          have hgp := (numResidue_pres hc).1
          simp [hm, hgp]

/-- A yielded record carries the germline attributes iff the flag was set
at its terminator and the record owns a hit. -/
theorem numTerm_germ_iff {st : NumState} {st1 : NumState} {q : QueryResult}
    (h : numTerm st = .ok (st1, some q)) :
    q.species_germline.isSome = true ↔
      (st.assign_germline = true ∧ q.hits ≠ []) := by
  unfold numTerm at h
  dsimp only at h
  repeat' split at h
  all_goals
    first
    | (injection h with h; injection h with ha hb; injection hb with hb;
       subst hb; simp_all [emptyNumQResult])
    | simp_all

/-- Over lines none of which matches the germline pattern, a run started
with the flag clear keeps it clear and emits no germline attributes. -/
theorem numRunSt_germ_free (lines : List Chars) :
    ∀ (st st2 : NumState) (qs : List QueryResult) (e : Option PyErr),
      numRunSt st lines = (st2, qs, e) →
      st.assign_germline = false →
      (∀ l ∈ lines, reSearch germPat l = false) →
      st2.assign_germline = false ∧
        ∀ q ∈ qs, q.species_germline = none := by
  induction lines with
  | nil =>
    intro st st2 qs e h hflag hf
    unfold numRunSt at h
    rw [Prod.mk.injEq, Prod.mk.injEq] at h
    obtain ⟨h1, h2, -⟩ := h
    subst h1
    subst h2
    exact ⟨hflag, by simp⟩
  | cons l ls ih =>
    intro st st2 qs e h hflag hf
    rcases hstep : numStep st l with e1 | p
    · rw [numRunSt_cons_err hstep ls] at h
      rw [Prod.mk.injEq, Prod.mk.injEq] at h
      obtain ⟨h1, h2, -⟩ := h
      subst h1
      subst h2
      exact ⟨hflag, by simp⟩
    · obtain ⟨st1, out⟩ := p
      have hm : isGermMarker l = false := by
        unfold isGermMarker
        rw [hf l (by simp)]
        simp
      have hflag1 : st1.assign_germline = false := by
        rcases hfl : st1.assign_germline with - | -
        · rfl
        · exfalso
          rcases (numStep_germ_iff hstep).mp hfl with hx | hx
          · rw [hflag] at hx
            exact absurd hx (by simp)
          · rw [hm] at hx
            exact absurd hx.2 (by simp)
      obtain ⟨ihflag, ihq⟩ := ih st1 (numRunSt st1 ls).1
        (numRunSt st1 ls).2.1 (numRunSt st1 ls).2.2 rfl hflag1
        (fun x hx => hf x (by simp [hx]))
      rw [numRunSt_cons_ok hstep ls] at h
      rw [Prod.mk.injEq, Prod.mk.injEq] at h
      obtain ⟨h1, h2, -⟩ := h
      subst h1
      subst h2
      refine ⟨ihflag, ?_⟩
      cases out with
      | none => exact ihq
      | some q0 =>
        intro q hq
        have hq2 : q = q0 ∨ q ∈ (numRunSt st1 ls).2.1 := by simpa using hq
        rcases hq2 with hq1 | hq1
        · subst hq1
          rcases hsg : q.species_germline with - | v
          · rfl
          · exfalso
            have hiff := numTerm_germ_iff (numStep_some hstep)
            have hx : st.assign_germline = true ∧ q.hits ≠ [] :=
              hiff.mp (by rw [hsg]; rfl)
            rw [hflag] at hx
            exact absurd hx.1 (by simp)
        · exact ihq q hq1

/-! ### Claim theorems -/

/-- Claim C1, counterexample: the germline flag is not cleared between
records.  In `c1File` the second record (`c1Rec2`, whose lines match no
germline-statistics pattern) is nonetheless emitted with all germline
attributes set, copied from the first record. -/
theorem C1_counterexample :
    (AnarciNumParser.parse c1File).2 = none ∧
    (AnarciNumParser.parse c1File).1.map
      (fun q => (q.species_germline, q.v_gene, q.hits.length)) =
      [(some ("human".toList), some ("IGHV1".toList), 1),
       (some ("human".toList), some ("IGHV1".toList), 1)] ∧
    linesFrom c1File 0 = linesFrom c1Rec1 0 ++ linesFrom c1Rec2 0 ∧
    (linesFrom c1Rec2 0).all (fun l => !(reSearch germPat l)) = true := by
  decide

/-- Claim C1, amended: the parser does not clear the germline flag on
entering a fresh record, so the five germline attributes are set on a
yielded QueryResult iff the record owns a hit AND a germline-statistics
marker line was processed (in the annotation state) in that record or any
earlier record of the same file.  Stated as: (1) after any successful step
the flag is set iff it was set before or the step processed a marker line
in the annotation state; (2) every yielded record has the five attributes
all set or all unset, and only when it owns a hit; (3) a yield carries the
attributes iff the flag was set at its terminator and the record owns a
hit; (4) over a file with no germline-pattern line, a run started with the
flag clear keeps it clear and every yield has the attributes unset. -/
theorem C1_amended :
    (∀ (st : NumState) (l : Chars) (st1 : NumState)
       (out : Option QueryResult), numStep st l = .ok (st1, out) →
       (st1.assign_germline = true ↔
         (st.assign_germline = true ∨
          (¬ st.state = 0 ∧ isGermMarker l = true)))) ∧
    (∀ (st st2 : NumState) (lines : List Chars) (qs : List QueryResult)
       (e : Option PyErr), numRunSt st lines = (st2, qs, e) → ∀ q ∈ qs,
         (q.species_germline.isSome = q.v_gene.isSome ∧
          q.species_germline.isSome = q.v_identity.isSome ∧
          q.species_germline.isSome = q.j_gene.isSome ∧
          q.species_germline.isSome = q.j_identity.isSome) ∧
         (q.species_germline.isSome = true → q.hits ≠ [])) ∧
    (∀ (st : NumState) (l : Chars) (st1 : NumState) (q : QueryResult),
       numStep st l = .ok (st1, some q) →
       (q.species_germline.isSome = true ↔
         (st.assign_germline = true ∧ q.hits ≠ []))) ∧
    (∀ (lines : List Chars) (st st2 : NumState) (qs : List QueryResult)
       (e : Option PyErr), numRunSt st lines = (st2, qs, e) →
       st.assign_germline = false →
       (∀ l ∈ lines, reSearch germPat l = false) →
       st2.assign_germline = false ∧
         ∀ q ∈ qs, q.species_germline = none) := by
  refine ⟨fun st l st1 out h => numStep_germ_iff h, ?_, ?_, ?_⟩
  · intro st st2 lines qs e h q hq
    exact numRunSt_yield_prop _
      (fun st st1 q hq0 => numTerm_five hq0) lines st st2 qs e h q hq
  · intro st l st1 q h
    exact numTerm_germ_iff (numStep_some h)
  · intro lines st st2 qs e h h1 h2
    exact numRunSt_germ_free lines st st2 qs e h h1 h2

/-- Witness for the amended C1: the germline-free single-record file
`c1Rec2` is parsed from the fresh state with the flag clear throughout and
its one yielded record carries no germline attributes. -/
theorem C1_witness :
    numInit.assign_germline = false ∧
    (∀ l ∈ linesFrom c1Rec2 0, reSearch germPat l = false) ∧
    ((numRunSt numInit (linesFrom c1Rec2 0)).1.assign_germline = false ∧
     ∀ q ∈ (numRunSt numInit (linesFrom c1Rec2 0)).2.1,
       q.species_germline = none) := by
  refine ⟨rfl, by decide, ?_⟩
  exact C1_amended.2.2.2 (linesFrom c1Rec2 0) numInit
    (numRunSt numInit (linesFrom c1Rec2 0)).1
    (numRunSt numInit (linesFrom c1Rec2 0)).2.1
    (numRunSt numInit (linesFrom c1Rec2 0)).2.2 rfl rfl (by decide)

/-- Claim C2, counterexample: the parser sets `query_end` to the bare residue
counter, not to `seqstart_index + counter`, so for the record of `c2File`
(`seqstart_index = 20`, two residues) `query_end − query_start = −18`,
which differs from the non-gap residue count 2 (= `len(sequence)`).  The
repository's own test (`test_SearchIO_anarci_num.py`, first query) asserts
this behaviour: `query_start = 20`, `query_end = 116` for 116 residues. -/
theorem C2_counterexample :
    (AnarciNumParser.parse c2File).2 = none ∧
    (firstFrag (AnarciNumParser.parse c2File).1).map
      (fun fr => (fr.query_start, fr.query_end, fr.query_seq.length)) =
      some (20, 2, 2) ∧
    (firstFrag (AnarciNumParser.parse c2File).1).map
      (fun fr => decide (fr.query_end - fr.query_start =
        (fr.query_seq.length : Int))) = some false := by
  decide

/-- Claim C2, amended: for every record of a numbered run whose residue
tokens are single characters, the emitted fragment satisfies
`query_end = len(sequence)` (the count of non-gap residues), and the
per-residue annotation list attached under the scheme key has that same
length; `query_end − query_start` equals `len(sequence) − seqstart_index`,
which is the claimed difference only when `seqstart_index = 0`. -/
theorem C2_amended (lines : List Chars) (st2 : NumState)
    (qs : List QueryResult) (e : Option PyErr)
    (hcond : ∀ l ∈ lines,
      l.head? = some '#' ∨ isTerm l = true ∨ lastTokLen1 l = true)
    (hrun : numRunSt numInit lines = (st2, qs, e)) :
    ∀ q ∈ qs, ∀ ht ∈ q.hits, ∀ s ∈ ht.hsps, ∀ fr ∈ s.fragments,
      fr.query_end = (fr.query_seq.length : Int) ∧
      ∀ pr ∈ fr.letter_annots, pr.2.length = fr.query_seq.length :=
  numRunSt_len lines numInit st2 qs e hcond rfl rfl hrun

/-- Witness for the amended C2, at the file `c2File`. -/
theorem C2_witness :
    (∀ l ∈ linesFrom c2File 0,
      l.head? = some '#' ∨ isTerm l = true ∨ lastTokLen1 l = true) ∧
    (∀ q ∈ (numRunSt numInit (linesFrom c2File 0)).2.1,
      ∀ ht ∈ q.hits, ∀ s ∈ ht.hsps, ∀ fr ∈ s.fragments,
        fr.query_end = (fr.query_seq.length : Int) ∧
        ∀ pr ∈ fr.letter_annots, pr.2.length = fr.query_seq.length) :=
  ⟨by decide,
   C2_amended (linesFrom c2File 0)
     (numRunSt numInit (linesFrom c2File 0)).1
     (numRunSt numInit (linesFrom c2File 0)).2.1
     (numRunSt numInit (linesFrom c2File 0)).2.2 (by decide) rfl⟩

/-- Claim C5, counterexample: the gap test reads `line[2]`, the third
whitespace token, so a four-token alternate-numbering row whose residue
token (the last token) is `-` is treated as a residue: in `c5File` the row
`H 100 A -` appends `-` to the sequence, appends the annotation `100a`, and
advances the counter. -/
theorem C5_counterexample :
    (pySplit ("H 100 A -\n".toList)).getLast? = some ('-' :: []) ∧
    (pySplit ("H 100 A -\n".toList)).length = 4 ∧
    (AnarciNumParser.parse c5File).2 = none ∧
    (firstFrag (AnarciNumParser.parse c5File).1).map
      (fun fr => (fr.query_seq, fr.letter_annots)) =
      some (("Q-V".toList),
            [(("kabat".toList),
              [("1".toList), ("100a".toList), ("2".toList)])]) := by
  decide

/-- Claim C5, amended: a residue row is skipped as a gap exactly when its
third whitespace token is `-` (for the 3-token shape this is the residue
token): such a row leaves the parser state completely unchanged and yields
nothing, so later residues stay contiguous; a 4-token row whose last token
is `-` but whose third token is not is treated as an ordinary residue. -/
theorem C5_amended (st : NumState) (l : Chars)
    (hb : isBlank l = false) (ht : isTerm l = false)
    (hh : ¬ l.head? = some '#')
    (h2 : (pySplit l).get? 2 = some ('-' :: [])) :
    numStep st l = .ok (st, none) := by
  unfold numStep
  rw [hb, ht]
  simp only [Bool.false_eq_true, if_false]
  rw [if_neg hh, numResidue_gap h2]

/-- Witness for the amended C5, at the 3-token gap row `H 100 -`. -/
theorem C5_witness :
    isBlank ("H 100 -\n".toList) = false ∧
    isTerm ("H 100 -\n".toList) = false ∧
    ¬ ("H 100 -\n".toList).head? = some '#' ∧
    (pySplit ("H 100 -\n".toList)).get? 2 = some ('-' :: []) ∧
    numStep numInit ("H 100 -\n".toList) = .ok (numInit, none) :=
  ⟨by decide, by decide, by decide, by decide,
   C5_amended numInit _ (by decide) (by decide) (by decide) (by decide)⟩

/-- Claim C6, counterexample: a numbered file whose final record is never
terminated is not a fatal parse: iteration over `c6File` (four content
lines, no terminator) ends with no error and the partial record is silently
dropped — no QueryResult is emitted for it. -/
theorem C6_counterexample :
    AnarciNumParser.parse c6File = ([], none) ∧
    (linesFrom c6File 0).length = 4 ∧
    (linesFrom c6File 0).all (fun l => !(isTerm l)) = true := by
  decide

/-- Claim C6, amended: in the numbered format an unterminated trailing
record is silently dropped — lines containing no terminator yield nothing,
and iteration over such a file ends without error; the hits parser instead
always ends iteration with an error (its blank-line assertion fires at end
of file), so there the partial record is likewise not emitted but the parse
aborts. -/
theorem C6_amended :
    (∀ (st : NumState) (lines : List Chars),
      (∀ l ∈ lines, isTerm l = false) → (numRunSt st lines).2.1 = []) ∧
    AnarciNumParser.parse c6File = ([], none) ∧
    (∀ (st : HitsState) (lines : List Chars),
      (hitsRun st lines).2.isSome = true) := by
  refine ⟨fun st lines h => numRunSt_noterm lines st h, by decide, ?_⟩
  intro st lines
  rfl

/-- Witness for the amended C6, at the unterminated file `c6File`. -/
theorem C6_witness :
    (∀ l ∈ linesFrom c6File 0, isTerm l = false) ∧
    (numRunSt numInit (linesFrom c6File 0)).2.1 = [] ∧
    (hitsRun hitsInit []).2.isSome = true :=
  ⟨by decide, C6_amended.1 numInit _ (by decide), C6_amended.2.2 hitsInit []⟩

/-! ### Small line lemmas and the hits-parser toolbox -/

/-- A terminator line is not blank. -/
theorem isTerm_not_blank {l : Chars} (h : isTerm l = true) :
    isBlank l = false := by
  match l with
  | [] => simp [isTerm] at h
  | [c] => simp [isTerm] at h
  | c1 :: c2 :: rest =>
    simp [isTerm, List.take] at h
    obtain ⟨h1, h2⟩ := h
    subst h1
    simp [isBlank, isPySpace]

/-- A comment line is not a terminator line. -/
theorem hash_not_term {l : Chars} (h : l.head? = some '#') :
    isTerm l = false := by
  match l with
  | [] => simp at h
  | c :: rest =>
    simp at h
    subst h
    simp [isTerm, List.take]

/-- A blank line has no whitespace tokens. -/
theorem blank_pySplit {l : Chars} (h : isBlank l = true) : pySplit l = [] := by
  unfold pySplit
  unfold isBlank at h
  induction l with
  | nil => rfl
  | cons c cs ih =>
    simp at h
    obtain ⟨h1, h2⟩ := h
    unfold pySplitGo
    simp [h1]
    exact ih (by simpa using h2)

/-- A line with at least three whitespace tokens is not blank. -/
theorem get2_not_blank {l : Chars} {x : Chars}
    (h : (pySplit l).get? 2 = some x) : isBlank l = false := by
  rcases hb : isBlank l with hb1 | hb1
  · rfl
  · rw [blank_pySplit hb] at h
    simp at h

/-- In the header state a non-terminator, non-column-header line leaves
`hit_id`, `hit_lst`, `qresult` and the state untouched and yields nothing. -/
theorem hitsStep_header {st : HitsState} {l : Chars} {st1 : HitsState}
    {out : Option QueryResult}
    (h : hitsStep st l = .ok (st1, out)) (hs : st.state = 0)
    (ht : isTerm l = false) (hc : pyStartswith l colHdr = false) :
    st1.hit_id = st.hit_id ∧ st1.state = 0 ∧ st1.hit_lst = st.hit_lst ∧
    st1.qresult = st.qresult ∧ out = none := by
  unfold hitsStep at h
  rw [ht] at h
  simp only [Bool.false_eq_true, if_false] at h
  rw [if_pos hs] at h
  split at h
  · split at h
    · injection h with h
      injection h with h1 h2
      subst h2
      subst h1
      simp [hs]
    · simp at h
  · split at h
    · split at h
      · injection h with h
        injection h with h1 h2
        subst h2
        subst h1
        simp [hs]
      · simp at h
    · rw [hc] at h
      simp only [Bool.false_eq_true, if_false] at h
      injection h with h
      injection h with h1 h2
      subst h2
      subst h1
      simp [hs]

/-- In the header state the column-header row only flips the state to the
annotation value (line 82-83), leaving everything else untouched and
yielding nothing. -/
theorem hitsStep_colhdr {st : HitsState} {l : Chars}
    (hs : st.state = 0) (ht : isTerm l = false)
    (hc : pyStartswith l colHdr = true) :
    hitsStep st l = .ok ({ st with state := 1 }, none) := by
  obtain ⟨z, hz⟩ := List.isPrefixOf_iff_prefix.mp hc
  have hn : pyStartswith l ("NAME".toList) = false := by
    rw [← hz]
    rfl
  have hq : pyStartswith l ("SEQUENCE".toList) = false := by
    rw [← hz]
    rfl
  unfold hitsStep
  rw [ht]
  simp only [Bool.false_eq_true, if_false]
  rw [if_pos hs, hn]
  simp only [Bool.false_eq_true, if_false]
  rw [hq]
  simp only [Bool.false_eq_true, if_false]
  rw [hc]
  rfl

/-- A terminator reached with an empty `hit_id` yields the hit-less record
(no hits, no `chain_type`/`species`/`scheme` attributes) and resets. -/
theorem hitsStep_term_empty {st : HitsState} {l : Chars} {st1 : HitsState}
    {out : Option QueryResult}
    (h : hitsStep st l = .ok (st1, out)) (ht : isTerm l = true)
    (hid : st.hit_id = []) :
    st1 = hitsReset st ∧ ∃ q, out = some q ∧ q.hits = [] ∧
      q.chain_type = none ∧ q.species = none ∧ q.scheme = none := by
  unfold hitsStep at h
  rw [ht] at h
  simp only [if_true] at h
  rw [hid] at h
  simp only [List.isEmpty_nil, Bool.not_true, Bool.false_eq_true, if_false] at h
  split at h
  · injection h with h
    injection h with h1 h2
    subst h1
    subst h2
    exact ⟨rfl, _, rfl, rfl, rfl, rfl, rfl⟩
  · simp at h

/-- Processing comment lines and gap rows from an empty-sequence state, then
a terminator, yields exactly one hit-less record with no
`scheme`/`chain_type`/`species` attributes (when no error aborts the run). -/
theorem numRecord_empty (lines : List Chars) :
    ∀ (st : NumState), st.sequence = [] →
      (∀ l ∈ lines, l.head? = some '#' ∨
        ((pySplit l).get? 2 = some ('-' :: []) ∧ ¬ l.head? = some '#' ∧
         isTerm l = false)) →
      ∀ (t : Chars) (st2 : NumState) (qs : List QueryResult)
        (e : Option PyErr),
        isTerm t = true → numRunSt st (lines ++ [t]) = (st2, qs, e) →
        e = none →
        qs.length = 1 ∧ ∀ q ∈ qs, q.hits = [] ∧ q.scheme = none ∧
          q.chain_type = none ∧ q.species = none := by
  induction lines with
  | nil =>
    intro st hseq hcond t st2 qs e htterm hrun henone
    simp only [List.nil_append] at hrun
    unfold numRunSt at hrun
    rcases hstep : numStep st t with e1 | p <;> rw [hstep] at hrun
    · simp at hrun
      obtain ⟨-, -, h3⟩ := hrun
      rw [← h3] at henone
      simp at henone
    · obtain ⟨st1, out⟩ := p
      dsimp only at hrun
      unfold numRunSt at hrun
      have hterm : numTerm st = .ok (st1, out) := by
        unfold numStep at hstep
        rw [isTerm_not_blank htterm] at hstep
        simp only [Bool.false_eq_true, if_false] at hstep
        rw [htterm] at hstep
        simpa using hstep
      obtain ⟨-, hsome⟩ := numTerm_shape hterm
      rcases out with - | q
      · simp at hsome
      · have hprops := numTerm_empty hterm (by simpa using hseq)
        simp at hrun
        obtain ⟨-, h2, -⟩ := hrun
        subst h2
        refine ⟨rfl, ?_⟩
        intro q1 hq1
        rcases List.mem_cons.mp hq1 with hq2 | hq2
        · subst hq2
          exact ⟨hprops.1, hprops.2.1, hprops.2.2.1, hprops.2.2.2.1⟩
        · simp at hq2
  | cons l ls ih =>
    intro st hseq hcond t st2 qs e htterm hrun henone
    simp only [List.cons_append] at hrun
    unfold numRunSt at hrun
    rcases hstep : numStep st l with e1 | p <;> rw [hstep] at hrun
    · simp at hrun
      obtain ⟨-, -, h3⟩ := hrun
      rw [← h3] at henone
      simp at henone
    · obtain ⟨st1, out⟩ := p
      dsimp only at hrun
      have hcl := hcond l (by simp)
      have hlterm : isTerm l = false := by
        rcases hcl with h1 | ⟨-, -, h3⟩
        · exact hash_not_term h1
        · exact h3
      have hout : out = none := numStep_out_none hstep hlterm
      subst hout
      have hseq1 : st1.sequence = [] := by
        unfold numStep at hstep
        split at hstep
        · simp at hstep
        · split at hstep
          · rw [hlterm] at *
            simp_all
          · split at hstep
            · rcases hcm : numComment st l with e2 | stc <;>
                rw [hcm] at hstep
              · simp at hstep
              · injection hstep with hstep
                injection hstep with h1 h2
                subst h1
                rw [(numComment_eff hcm).1, hseq]
            · rename_i hterm2 hhash2
              rcases hcl with h1 | ⟨hgap, -, -⟩
              · exact absurd h1 hhash2
              · rw [numResidue_gap hgap] at hstep
                injection hstep with hstep
                injection hstep with h1 h2
                subst h1
                exact hseq
      simp only [Option.elim_none] at hrun
      exact ih st1 hseq1
        (fun l1 hl1 => hcond l1 (by simp [hl1])) t st2 qs e htterm
        (by rw [← hrun]) henone

/-- Processing header-section lines from a fresh hits-record state —
optionally ending with the column-header row, which only flips the state —
then a terminator, yields exactly one hit-less record with no
`chain_type`/`species`/`scheme` attributes (when no error aborts the
run). -/
theorem hitsRecord_empty (lines : List Chars) :
    ∀ (B : List Chars) (st : HitsState), st.hit_id = [] → st.state = 0 →
      (∀ l ∈ lines, isTerm l = false ∧ pyStartswith l colHdr = false) →
      (B = [] ∨ ∃ c, B = [c] ∧ isTerm c = false ∧
        pyStartswith c colHdr = true) →
      ∀ (t : Chars) (st2 : HitsState) (qs : List QueryResult)
        (e : Option PyErr),
        isTerm t = true →
        hitsRunSt st ((lines ++ B) ++ [t]) = (st2, qs, e) →
        e = none →
        qs.length = 1 ∧ ∀ q ∈ qs, q.hits = [] ∧ q.chain_type = none ∧
          q.species = none ∧ q.scheme = none := by
  induction lines with
  | nil =>
    intro B st hid hs hcond hB t st2 qs e htterm hrun henone
    rcases hB with hB | ⟨c, hBc, htc, hcc⟩
    · subst hB
      simp only [List.nil_append] at hrun
      unfold hitsRunSt at hrun
      rw [isTerm_not_blank htterm] at hrun
      simp only [Bool.false_eq_true, if_false] at hrun
      rcases hstep : hitsStep st t with e1 | p <;> rw [hstep] at hrun
      · simp at hrun
        obtain ⟨-, -, h3⟩ := hrun
        rw [← h3] at henone
        simp at henone
      · obtain ⟨st1, out⟩ := p
        dsimp only at hrun
        obtain ⟨-, q, hq, hprops⟩ := hitsStep_term_empty hstep htterm hid
        subst hq
        unfold hitsRunSt at hrun
        simp at hrun
        obtain ⟨-, h2, -⟩ := hrun
        subst h2
        refine ⟨rfl, ?_⟩
        intro q1 hq1
        rcases List.mem_cons.mp hq1 with hq2 | hq2
        · subst hq2
          exact hprops
        · simp at hq2
    · subst hBc
      simp only [List.nil_append, List.cons_append] at hrun
      unfold hitsRunSt at hrun
      have hbc : isBlank c = false := by
        obtain ⟨z, hz⟩ := List.isPrefixOf_iff_prefix.mp hcc
        rw [← hz]
        rfl
      rw [hbc] at hrun
      simp only [Bool.false_eq_true, if_false] at hrun
      rw [hitsStep_colhdr hs htc hcc] at hrun
      dsimp only at hrun
      unfold hitsRunSt at hrun
      rw [isTerm_not_blank htterm] at hrun
      simp only [Bool.false_eq_true, if_false] at hrun
      rcases hstep : hitsStep { st with state := 1 } t with e1 | p <;>
        rw [hstep] at hrun
      · simp at hrun
        obtain ⟨-, -, h3⟩ := hrun
        rw [← h3] at henone
        simp at henone
      · obtain ⟨st1, out⟩ := p
        dsimp only at hrun
        obtain ⟨-, q, hq, hprops⟩ := hitsStep_term_empty hstep htterm hid
        subst hq
        unfold hitsRunSt at hrun
        simp at hrun
        obtain ⟨-, h2, -⟩ := hrun
        subst h2
        refine ⟨rfl, ?_⟩
        intro q1 hq1
        rcases List.mem_cons.mp hq1 with hq2 | hq2
        · subst hq2
          exact hprops
        · simp at hq2
  | cons l ls ih =>
    intro B st hid hs hcond hB t st2 qs e htterm hrun henone
    simp only [List.cons_append] at hrun
    unfold hitsRunSt at hrun
    rcases hbl : isBlank l with hb1 | hb1
    · rw [hbl] at hrun
      simp only [Bool.false_eq_true, if_false] at hrun
      rcases hstep : hitsStep st l with e1 | p <;> rw [hstep] at hrun
      · simp at hrun
        obtain ⟨-, -, h3⟩ := hrun
        rw [← h3] at henone
        simp at henone
      · obtain ⟨st1, out⟩ := p
        dsimp only at hrun
        have hcl := hcond l (by simp)
        obtain ⟨hid1, hs1, -, -, hout⟩ :=
          hitsStep_header hstep hs hcl.1 hcl.2
        subst hout
        simp only [Option.elim_none] at hrun
        exact ih B st1 (by rw [hid1, hid]) hs1
          (fun l1 hl1 => hcond l1 (by simp [hl1])) hB t st2 qs e htterm
          (by rw [← hrun]) henone
    · rw [hbl] at hrun
      simp only [if_true] at hrun
      simp at hrun
      obtain ⟨-, -, h3⟩ := hrun
      rw [← h3] at henone
      simp at henone

/-- Claim C4, counterexample: a record with zero statistics rows does not
always yield an empty QueryResult.  In `c4File` the second record `c4Rec2`
has no line matching the statistics pattern, yet because it carries a
residue row the parser emits a QueryResult with one Hit, built from the
statistics remembered from the first record (`scheme`/`species` are set,
to the stale values). -/
theorem C4_counterexample :
    (AnarciNumParser.parse c4File).2 = none ∧
    (AnarciNumParser.parse c4File).1.map
      (fun q => (q.id, q.hits.length, q.scheme, q.species)) =
      [(("A".toList), 1, some ("kabat".toList), some ("mouse".toList)),
       (("B".toList), 1, some ("kabat".toList), some ("mouse".toList))] ∧
    linesFrom c4File 0 = linesFrom c4Rec1 0 ++ linesFrom c4Rec2 0 ∧
    (linesFrom c4Rec2 0).all (fun l => !(reSearch statsPat l)) = true := by
  decide

/-- Claim C4, amended: a record with zero statistics rows and no residue
row treated as a residue — numbered format: every line before the
terminator is a comment line or a gap row; hits format: every line before
the terminator is a header-section line, optionally ending with the
column-header row (which only flips the state, with no table rows after
it) — yields, from any record boundary state, exactly one QueryResult with
an empty hit list and no `scheme`/`chain_type`/`species` attributes,
provided no error aborts the run.  (A numbered record with a non-gap
residue row and zero statistics rows instead reuses statistics remembered
from earlier records, as the counterexample shows.) -/
theorem C4_amended :
    (∀ (lines : List Chars) (st : NumState), st.sequence = [] →
      (∀ l ∈ lines, l.head? = some '#' ∨
        ((pySplit l).get? 2 = some ('-' :: []) ∧ ¬ l.head? = some '#' ∧
         isTerm l = false)) →
      ∀ (t : Chars) (st2 : NumState) (qs : List QueryResult)
        (e : Option PyErr),
        isTerm t = true → numRunSt st (lines ++ [t]) = (st2, qs, e) →
        e = none →
        qs.length = 1 ∧ ∀ q ∈ qs, q.hits = [] ∧ q.scheme = none ∧
          q.chain_type = none ∧ q.species = none) ∧
    (∀ (lines B : List Chars) (st : HitsState), st.hit_id = [] →
      st.state = 0 →
      (∀ l ∈ lines, isTerm l = false ∧ pyStartswith l colHdr = false) →
      (B = [] ∨ ∃ c, B = [c] ∧ isTerm c = false ∧
        pyStartswith c colHdr = true) →
      ∀ (t : Chars) (st2 : HitsState) (qs : List QueryResult)
        (e : Option PyErr),
        isTerm t = true →
        hitsRunSt st ((lines ++ B) ++ [t]) = (st2, qs, e) →
        e = none →
        qs.length = 1 ∧ ∀ q ∈ qs, q.hits = [] ∧ q.chain_type = none ∧
          q.species = none ∧ q.scheme = none) :=
  ⟨fun lines st h1 h2 t st2 qs e h3 h4 h5 =>
     numRecord_empty lines st h1 h2 t st2 qs e h3 h4 h5,
   fun lines B st h1 h2 h3 hB t st2 qs e h4 h5 h6 =>
     hitsRecord_empty lines B st h1 h2 h3 hB t st2 qs e h4 h5 h6⟩

/-- Witness for the amended C4: a header-only numbered record, and a hits
record consisting of a NAME line and the column-header row (zero table
rows), each closed by a terminator. -/
theorem C4_witness :
    ((∀ l ∈ [("# B b\n".toList)], l.head? = some '#' ∨
        ((pySplit l).get? 2 = some ('-' :: []) ∧ ¬ l.head? = some '#' ∧
         isTerm l = false)) ∧
     (numRunSt { numInit with query_id := some ("B".toList),
                              query_description := some [] }
        ([("# B b\n".toList)] ++ [("//\n".toList)])).2.1.length = 1) ∧
    ((∀ l ∈ [("NAME Q\n".toList)],
        isTerm l = false ∧ pyStartswith l colHdr = false) ∧
     (∃ c, [("         id description\n".toList)] = [c] ∧
        isTerm c = false ∧ pyStartswith c colHdr = true) ∧
     (hitsRunSt hitsInit
        (([("NAME Q\n".toList)] ++
          [("         id description\n".toList)]) ++
         [("//\n".toList)])).2.1.length = 1) := by
  constructor
  · refine ⟨by decide, ?_⟩
    exact (C4_amended.1 [("# B b\n".toList)]
      { numInit with query_id := some ("B".toList),
                     query_description := some [] }
      rfl (by decide) ("//\n".toList) _ _ _ (by decide) rfl (by decide)).1
  · refine ⟨by decide, ⟨_, rfl, by decide, by decide⟩, ?_⟩
    exact (C4_amended.2 [("NAME Q\n".toList)]
      [("         id description\n".toList)] hitsInit rfl rfl (by decide)
      (Or.inr ⟨_, rfl, by decide, by decide⟩) ("//\n".toList) _ _ _
      (by decide) rfl (by decide)).1

/-- Claim C3: the hits parser cannot terminate normally.  `c3File` is a
well-formed hits file — it begins with the signature line, contains no blank
line, and its single record is terminated by `//` — and the parser yields
exactly one QueryResult for its one terminator, in order, but iteration then
raises the blank-line `AssertionError` at end of file: `readline` returns
the empty string, whose `strip()` is falsy, before the `if not line: break`
can run.  The `break` is unreachable, which contradicts the loop's own
end-of-file exit and the documented lazy-sequence contract. -/
theorem C3_bug :
    readLine c3File 0 = ("# Hit file for ANARCI\n".toList) ∧
    (linesFrom c3File 0).all (fun l => !(isBlank l)) = true ∧
    (linesFrom c3File 0).getLast? = some ("//\n".toList) ∧
    (AnarciHitsParser.parse c3File).1.map
      (fun q => (q.id, q.hits.length)) = [(("Q1".toList), 0)] ∧
    (AnarciHitsParser.parse c3File).2 = some PyErr.assertionError := by
  decide

/-- Claim C7, counterexample: the hits parser performs no signature check:
on `c7File`, which does not begin with `# Hit file for ANARCI`, it does not
fail fast but parses and yields a QueryResult. -/
theorem C7_counterexample :
    pyStartswith (readLine c7File 0) ("# Hit file for ANARCI".toList) =
      false ∧
    (AnarciHitsParser.parse c7File).1.map
      (fun q => (q.id, q.hits.length)) = [(("Q1".toList), 0)] := by
  decide

/-- Claim C7, amended: only the hits indexer checks the signature: it fails
on open whenever the first line is not exactly the signature line; the hits
parser has no signature check at all and proceeds to yield records (the
numbered parser and indexer instead assert that the first line is not the
hits signature). -/
theorem C7_amended :
    (∀ f : Chars, ¬ readLine f 0 = ("# Hit file for ANARCI\n".toList) →
      AnarciHitsIndexer.openIndex f = .error .assertionError) ∧
    (AnarciHitsParser.parse c7File).1.length = 1 := by
  constructor
  · intro f h
    unfold AnarciHitsIndexer.openIndex
    rw [if_neg h]
  · decide

/-- Witness for the amended C7, at the signature-less file `c7File`. -/
theorem C7_witness :
    (¬ readLine c7File 0 = ("# Hit file for ANARCI\n".toList)) ∧
    AnarciHitsIndexer.openIndex c7File = .error .assertionError :=
  ⟨by decide, C7_amended.1 c7File (by decide)⟩

/-! ### Byte-level lemmas for the indexer claims -/

/-- `takeLine l` is the prefix of `l` of its own length. -/
theorem takeLine_take (l : List Char) :
    takeLine l = l.take (takeLine l).length := by
  induction l with
  | nil => rfl
  | cons c cs ih =>
    unfold takeLine
    by_cases hc : c = '\n'
    · simp [hc]
    · rw [if_neg hc]
      simp only [List.length_cons, List.take_succ_cons]
      rw [← ih]

theorem takeLine_len_le (l : List Char) : (takeLine l).length ≤ l.length := by
  induction l with
  | nil => simp [takeLine]
  | cons c cs ih =>
    unfold takeLine
    by_cases hc : c = '\n'
    · simp [hc]
    · rw [if_neg hc]
      simp only [List.length_cons]
      omega

/-- A nonempty line can only be read strictly inside the file. -/
theorem readLine_lt {f : Chars} {p : Nat}
    (h : (readLine f p).isEmpty = false) : p < f.length := by
  unfold readLine at h
  by_contra hge
  push_neg at hge
  rw [List.drop_eq_nil_of_le hge] at h
  simp [takeLine] at h

/-- Reading a line never runs past the end of the file. -/
theorem readLine_end_le (f : Chars) (p : Nat) :
    p + (readLine f p).length ≤ f.length ∨ (readLine f p).isEmpty = true := by
  by_cases h : (readLine f p).isEmpty = true
  · exact Or.inr h
  · left
    have hp := readLine_lt (by simpa using h)
    have hle : (readLine f p).length ≤ (f.drop p).length :=
      takeLine_len_le (f.drop p)
    rw [List.length_drop] at hle
    omega

theorem ReachesNT_le {f : Chars} {a b : Nat} (h : ReachesNT f a b) :
    a ≤ b := by
  induction h with
  | refl p => exact Nat.le_refl p
  | step hne hterm hr ih => omega

theorem ReachesNT_snoc {f : Chars} {a b : Nat} (h : ReachesNT f a b) :
    (readLine f b).isEmpty = false → isTerm (readLine f b) = false →
    ReachesNT f a (b + (readLine f b).length) := by
  induction h with
  | refl p =>
    intro hne hterm
    exact ReachesNT.step hne hterm (ReachesNT.refl _)
  | step hne0 hterm0 hr ih =>
    intro hne hterm
    exact ReachesNT.step hne0 hterm0 (ih hne hterm)

/-- `get_raw` started at `s` re-reads exactly the lines the scan read from
`s` to the terminator line at `p`, and returns the file slice from `s`
through the end of that terminator line. -/
theorem getRawGo_reach (f : Chars) {s p : Nat} (h : ReachesNT f s p) :
    (readLine f p).isEmpty = false → isTerm (readLine f p) = true →
    ∀ (fuel : Nat) (acc : Chars), p - s < fuel →
      getRawGo f fuel s acc =
        some (acc ++ (f.drop s).take (p + (readLine f p).length - s)) := by
  induction h with
  | refl p0 =>
    intro hne hterm fuel acc hfuel
    cases fuel with
    | zero => omega
    | succ n =>
      unfold getRawGo
      dsimp only
      rw [hne]
      simp only [Bool.false_eq_true, if_false]
      rw [hterm]
      simp only [if_true]
      have harith : p0 + (readLine f p0).length - p0 =
          (readLine f p0).length := by omega
      rw [harith]
      exact congrArg (fun x => some (acc ++ x)) (takeLine_take (f.drop p0))
  | step hne0 hterm0 hr ih =>
    rename_i p q
    intro hne hterm fuel acc hfuel
    cases fuel with
    | zero => omega
    | succ n =>
      unfold getRawGo
      dsimp only
      rw [hne0]
      simp only [Bool.false_eq_true, if_false]
      rw [hterm0]
      simp only [Bool.false_eq_true, if_false]
      have hlen : 0 < (readLine f p).length := by
        cases hl : readLine f p with
        | nil => rw [hl] at hne0; simp at hne0
        | cons c cs => simp
      have hple : p + (readLine f p).length ≤ q := ReachesNT_le hr
      rw [ih hne hterm n (acc ++ readLine f p) (by omega)]
      have hsplit : (f.drop p).take (q + (readLine f q).length - p) =
          (f.drop p).take (readLine f p).length ++
          ((f.drop p).drop (readLine f p).length).take
            (q + (readLine f q).length - (p + (readLine f p).length)) := by
        have harith : q + (readLine f q).length - p =
            (readLine f p).length +
            (q + (readLine f q).length - (p + (readLine f p).length)) := by
          omega
        rw [harith, List.take_add]
      refine congrArg some ?_
      rw [hsplit, List.append_assoc]
      refine congrArg (fun x => acc ++ x) ?_
      refine congrArg₂ (fun x y => x ++ y) ?_ ?_
      · exact takeLine_take (f.drop p)
      · refine congrArg _ ?_
        rw [List.drop_drop, Nat.add_comm]

/-- Every entry the numbered index scan yields satisfies the round-trip
property: `get_raw` at its start offset returns exactly its `byte_length`
bytes of the file, and those bytes end with a terminator line. -/
theorem numIndexGo_entries (f : Chars) :
    ∀ (fuel p start : Nat) (key : Option Chars) (state : Nat),
      ReachesNT f start p →
      ∀ e ∈ (numIndexGo f fuel p key start state).1,
        AnarciNumIndexer.get_raw f e.2.1 =
          some ((f.drop e.2.1).take e.2.2) ∧
        ∃ k, k + (readLine f (e.2.1 + k)).length = e.2.2 ∧
          isTerm (readLine f (e.2.1 + k)) = true := by
  intro fuel
  induction fuel with
  | zero =>
    intro p start key state hr e he
    simp [numIndexGo] at he
  | succ n ih =>
    intro p start key state hr e he
    unfold numIndexGo at he
    try dsimp only at he
    by_cases hemp : (readLine f p).isEmpty = true
    · rw [hemp] at he
      simp at he
    · rw [Bool.not_eq_true] at hemp
      rw [hemp] at he
      simp only [Bool.false_eq_true, if_false] at he
      by_cases hhash : (readLine f p).head? = some '#'
      · rw [if_pos hhash] at he
        have hreach : ReachesNT f start (p + (readLine f p).length) :=
          ReachesNT_snoc hr hemp (hash_not_term hhash)
        by_cases hst : state = 0
        · rw [if_pos hst] at he
          rcases hk : (pySplit (readLine f p)).get? 1 with - | k <;>
            rw [hk] at he
          · simp at he
          · exact ih _ _ _ _ hreach e he
        · rw [if_neg hst] at he
          exact ih _ _ _ _ hreach e he
      · rw [if_neg hhash] at he
        by_cases hterm : isTerm (readLine f p) = true
        · rw [hterm] at he
          simp only [if_true] at he
          try dsimp only at he
          rcases List.mem_cons.mp he with he1 | he1
          · subst he1
            have hplt := readLine_lt hemp
            constructor
            · unfold AnarciNumIndexer.get_raw
              rw [getRawGo_reach f hr hemp hterm (f.length + 1) []
                (by omega)]
              simp
            · refine ⟨p - start, ?_, ?_⟩
              · dsimp only
                have hle := ReachesNT_le hr
                have harith : start + (p - start) = p := by omega
                rw [harith]
                omega
              · dsimp only
                have hle := ReachesNT_le hr
                have harith : start + (p - start) = p := by omega
                rw [harith]
                exact hterm
          · exact ih _ _ _ _ (ReachesNT.refl _) e he1
        · rw [Bool.not_eq_true] at hterm
          rw [hterm] at he
          simp only [Bool.false_eq_true, if_false] at he
          exact ih _ _ _ _ (ReachesNT_snoc hr hemp hterm) e he

/-- Claim C9 (confirmed): for every `(key, start_offset, byte_length)` entry
yielded by `AnarciNumIndexer._qresult_index`, `get_raw(start_offset)` returns
verbatim exactly the `byte_length` bytes of the source file beginning at
`start_offset`, and those bytes end inclusively with a terminator line. -/
theorem C9_confirmed (f : Chars) (e : Option Chars × Nat × Nat)
    (he : e ∈ (AnarciNumIndexer.qresultIndex f).1) :
    AnarciNumIndexer.get_raw f e.2.1 = some ((f.drop e.2.1).take e.2.2) ∧
    ∃ k, k + (readLine f (e.2.1 + k)).length = e.2.2 ∧
      isTerm (readLine f (e.2.1 + k)) = true :=
  numIndexGo_entries f (f.length + 1) 0 0 none 0 (ReachesNT.refl 0) e he

/-- Witness for C9, at a one-record file. -/
theorem C9_witness :
    ((some ("A".toList), 0, 9) ∈
      (AnarciNumIndexer.qresultIndex ("# A a\n//\n".toList)).1) ∧
    (AnarciNumIndexer.get_raw ("# A a\n//\n".toList) 0 =
      some ((("# A a\n//\n".toList).drop 0).take 9) ∧
     ∃ k, k + (readLine ("# A a\n//\n".toList) (0 + k)).length = 9 ∧
       isTerm (readLine ("# A a\n//\n".toList) (0 + k)) = true) :=
  ⟨by decide, C9_confirmed ("# A a\n//\n".toList)
    (some ("A".toList), 0, 9) (by decide)⟩

/-- If no terminator line is read from an offset, `get_raw` falls off its
loop returning `None`. -/
theorem getRawGo_none (f : Chars) :
    ∀ (fuel p : Nat) (acc : Chars),
      (∀ l ∈ linesFromGo f fuel p, isTerm l = false) →
      getRawGo f fuel p acc = none := by
  intro fuel
  induction fuel with
  | zero => intro p acc h; rfl
  | succ n ih =>
    intro p acc h
    unfold getRawGo
    try dsimp only
    by_cases hemp : (readLine f p).isEmpty = true
    · rw [hemp]
      simp
    · rw [Bool.not_eq_true] at hemp
      rw [hemp]
      simp only [Bool.false_eq_true, if_false]
      have hmem : readLine f p ∈ linesFromGo f (n + 1) p := by
        unfold linesFromGo
        dsimp only
        rw [hemp]
        simp
      rw [h _ hmem]
      simp only [Bool.false_eq_true, if_false]
      apply ih
      intro l hl
      apply h
      unfold linesFromGo
      dsimp only
      rw [hemp]
      simp only [Bool.false_eq_true, if_false]
      exact List.mem_cons_of_mem _ hl

/-- Claim C10 (confirmed): if `get_raw` is called with an offset from which
no line starting with `//` is ever read before end of file, it returns
`None` instead of raising, for both the numbered-format and the hits-format
indexer. -/
theorem C10_confirmed (f : Chars) (off : Nat)
    (h : ∀ l ∈ linesFrom f off, isTerm l = false) :
    AnarciNumIndexer.get_raw f off = none ∧
    AnarciHitsIndexer.get_raw f off = none :=
  ⟨getRawGo_none f (f.length + 1) off [] h,
   getRawGo_none f (f.length + 1) off [] h⟩

/-- Witness for C10, at a terminator-less file. -/
theorem C10_witness :
    (∀ l ∈ linesFrom ("abc\ndef\n".toList) 0, isTerm l = false) ∧
    (AnarciNumIndexer.get_raw ("abc\ndef\n".toList) 0 = none ∧
     AnarciHitsIndexer.get_raw ("abc\ndef\n".toList) 0 = none) :=
  ⟨by decide, C10_confirmed ("abc\ndef\n".toList) 0 (by decide)⟩

/-! ### Proper-line decomposition lemmas (towards C8) -/

theorem isLine_len {l : Chars} (h : isLine l = true) : 0 < l.length := by
  cases l with
  | nil => simp [isLine] at h
  | cons c cs => simp

/-- Reading at the start of a proper line returns exactly that line. -/
theorem takeLine_flat {l : Chars} (h : isLine l = true) (z : Chars) :
    takeLine (l ++ z) = l := by
  induction l with
  | nil => simp [isLine] at h
  | cons c cs ih =>
    cases cs with
    | nil =>
      unfold isLine at h
      simp at h
      subst h
      simp [takeLine]
    | cons c2 cs2 =>
      unfold isLine at h
      simp at h
      obtain ⟨h1, h2⟩ := h
      rw [List.cons_append]
      show (if c = '\n' then [c] else c :: takeLine (c2 :: cs2 ++ z)) =
        c :: c2 :: cs2
      rw [if_neg h1]
      exact congrArg (fun x => c :: x) (ih h2)

theorem readLine_at {f : Chars} {p : Nat} {l z : Chars}
    (hd : f.drop p = l ++ z) (hl : isLine l = true) : readLine f p = l := by
  unfold readLine
  rw [hd]
  exact takeLine_flat hl z

theorem drop_next {f : Chars} {p : Nat} {l z : Chars}
    (hd : f.drop p = l ++ z) : f.drop (p + l.length) = z := by
  have h1 : f.drop (p + l.length) = (f.drop p).drop l.length := by
    rw [List.drop_drop, Nat.add_comm]
  rw [h1, hd]
  simp

/-- `readline` at or past the end of the bytes returns the empty string. -/
theorem readLine_end {f : Chars} {p : Nat} (hd : f.drop p = []) :
    readLine f p = [] := by
  unfold readLine
  rw [hd]
  rfl

theorem linesFromGo_end {f : Chars} {p : Nat} (hd : f.drop p = [])
    (fuel : Nat) : linesFromGo f fuel p = [] := by
  cases fuel with
  | zero => rfl
  | succ n =>
    unfold linesFromGo
    rw [readLine_end hd]
    simp

/-- Repeated `readline` over a run of proper lines returns those lines. -/
theorem linesFromGo_append (L : List Chars) :
    ∀ (f rest : Chars) (fuel p : Nat),
      (∀ l ∈ L, isLine l = true) → f.drop p = L.flatten ++ rest →
      linesFromGo f (fuel + L.length) p =
        L ++ linesFromGo f fuel (p + L.flatten.length) := by
  induction L with
  | nil =>
    intro f rest fuel p hL hd
    simp
  | cons l ls ih =>
    intro f rest fuel p hL hd
    rw [List.flatten_cons, List.append_assoc] at hd
    have hline := hL l (by simp)
    have hr : readLine f p = l := readLine_at hd hline
    have hlen : (l :: ls).length = ls.length + 1 := by simp
    rw [hlen, ← Nat.add_assoc]
    rw [linesFromGo]
    try dsimp only
    rw [hr]
    have hne : l.isEmpty = false := by
      cases l with
      | nil => simp [isLine] at hline
      | cons c cs => rfl
    rw [hne]
    simp only [Bool.false_eq_true, if_false]
    rw [ih f rest fuel (p + l.length) (fun x hx => hL x (by simp [hx]))
      (drop_next hd)]
    simp only [List.flatten_cons, List.length_append, List.cons_append]
    have harith : p + l.length + ls.flatten.length =
        p + (l.length + ls.flatten.length) := by omega
    rw [harith]

theorem lines_count_le (L : List Chars) (h : ∀ l ∈ L, isLine l = true) :
    L.length ≤ L.flatten.length := by
  induction L with
  | nil => simp
  | cons l ls ih =>
    simp only [List.length_cons, List.flatten_cons, List.length_append]
    have h1 := isLine_len (h l (by simp))
    have h2 := ih (fun x hx => h x (by simp [hx]))
    omega

/-- The `readline` decomposition of a concatenation of proper lines is that
list of lines. -/
theorem linesFrom_flatten (L : List Chars)
    (h : ∀ l ∈ L, isLine l = true) : linesFrom L.flatten 0 = L := by
  unfold linesFrom
  have hle := lines_count_le L h
  have harith : L.flatten.length + 1 =
      (L.flatten.length + 1 - L.length) + L.length := by omega
  rw [harith]
  rw [linesFromGo_append L L.flatten [] (L.flatten.length + 1 - L.length) 0 h
    (by simp)]
  rw [linesFromGo_end (by simp)]
  simp

/-- Splitting a run of the numbered parser at a clean break point. -/
theorem numRunSt_append (A : List Chars) :
    ∀ (B : List Chars) (st st1 : NumState) (qs : List QueryResult),
      numRunSt st A = (st1, qs, none) →
      numRunSt st (A ++ B) =
        ((numRunSt st1 B).1, qs ++ (numRunSt st1 B).2.1,
         (numRunSt st1 B).2.2) := by
  induction A with
  | nil =>
    intro B st st1 qs h
    unfold numRunSt at h
    rw [Prod.mk.injEq, Prod.mk.injEq] at h
    obtain ⟨h1, h2, -⟩ := h
    subst h1
    subst h2
    simp
  | cons l ls ih =>
    intro B st st1 qs h
    rcases hstep : numStep st l with e1 | p
    · rw [numRunSt_cons_err hstep ls] at h
      rw [Prod.mk.injEq, Prod.mk.injEq] at h
      obtain ⟨-, -, h3⟩ := h
      simp at h3
    · obtain ⟨sta, out⟩ := p
      rw [numRunSt_cons_ok hstep ls] at h
      rw [List.cons_append, numRunSt_cons_ok hstep (ls ++ B)]
      rcases hrun : numRunSt sta ls with ⟨stb, qsb, eb⟩
      rw [hrun] at h
      dsimp only at h
      rw [Prod.mk.injEq, Prod.mk.injEq] at h
      obtain ⟨hA, hB, hC⟩ := h
      have heb : eb = none := by
        cases eb with
        | none => rfl
        | some e2 => simp at hC
      subst heb
      subst hA
      have hok : numRunSt sta ls = (stb, qsb, none) := hrun
      rw [ih B sta stb qsb hok]
      cases out with
      | none =>
        simp only [Option.elim_none] at hB ⊢
        subst hB
        simp
      | some q0 =>
        simp only [Option.elim_some] at hB ⊢
        subst hB
        simp

/-! ### Success and effect lemmas for the comment and residue branches -/

theorem hash_not_blank {l : Chars} (h : l.head? = some '#') :
    isBlank l = false := by
  cases l with
  | nil => simp at h
  | cons c cs =>
    simp at h
    subst h
    simp [isBlank, isPySpace]

theorem numStep_hash_ok {st st1 : NumState} {l : Chars}
    (hh : l.head? = some '#') (hc : numComment st l = .ok st1) :
    numStep st l = .ok (st1, none) := by
  unfold numStep
  rw [hash_not_blank hh, hash_not_term hh]
  simp only [Bool.false_eq_true, if_false]
  rw [if_pos hh, hc]

/-- A comment line processed in the annotation state succeeds and has the
listed effects. -/
theorem numComment_run1 {st : NumState} {l : Chars}
    (hst : st.state = 1) (hok : commentOk l = true) :
    ∃ st1, numComment st l = .ok st1 ∧
      st1.state = 1 ∧
      st1.sequence = st.sequence ∧ st1.annots = st.annots ∧
      st1.feature_lst = st.feature_lst ∧
      st1.residue_counter = st.residue_counter ∧
      st1.query_id = st.query_id ∧
      st1.query_description = st.query_description ∧
      (isSchemeLine l = true → st1.scheme.isSome = true) ∧
      (isSchemeLine l = false → st1.scheme = st.scheme) ∧
      (isStatsLine l = true → statsSome st1) ∧
      (isStatsLine l = false →
        st1.species = st.species ∧ st1.chain_type = st.chain_type ∧
        st1.evalue = st.evalue ∧ st1.score = st.score ∧
        st1.seqstart_index = st.seqstart_index ∧ st1.hit_id = st.hit_id) ∧
      (germInv st → germInv st1) := by
  unfold numComment
  rw [hst]
  simp only [Nat.one_ne_zero, if_false]
  unfold commentOk at hok
  by_cases hsch : isSchemeLine l = true
  · rw [if_pos hsch] at hok
    unfold isSchemeLine at hsch
    rw [if_pos hsch]
    rcases hlast : (pySplit l).getLast? with - | t
    · rw [hlast] at hok
      simp at hok
    · refine ⟨_, rfl, ?_⟩
      have hsl : isSchemeLine l = true := hsch
      simp [hsl, statsSome, germInv, isStatsLine]
  · rw [if_neg hsch] at hok
    have hsch2 : pyStartswith l ("# Scheme = ".toList) = false := by
      unfold isSchemeLine at hsch
      simpa using hsch
    rw [hsch2]
    simp only [Bool.false_eq_true, if_false]
    by_cases hstat : reSearch statsPat l = true
    · rw [if_pos hstat] at hok ⊢
      unfold statsLineOk at hok
      rcases h1 : (pySplitChar l '|').get? 1 with - | f1 <;> rw [h1] at hok
      · simp at hok
      rcases h2 : (pySplitChar l '|').get? 2 with - | f2 <;> rw [h2] at hok
      · simp at hok
      rcases h3 : (pySplitChar l '|').get? 3 with - | f3 <;> rw [h3] at hok
      · simp at hok
      rcases h4 : (pySplitChar l '|').get? 4 with - | f4 <;> rw [h4] at hok
      · simp at hok
      rcases h5 : (pySplitChar l '|').get? 5 with - | f5 <;> rw [h5] at hok
      · simp at hok
      rcases h6 : (pySplitChar l '|').get? 6 with - | f6 <;> rw [h6] at hok
      · simp at hok
      simp only [Bool.and_eq_true] at hok
      obtain ⟨⟨⟨hf3, hf4⟩, hi5⟩, hi6⟩ := hok
      dsimp only
      have hcond : (pyFloatOk f3 && pyFloatOk f4) = true := by
        simp [hf3, hf4]
      rw [if_pos hcond]
      rcases hv5 : pyInt? f5 with - | i5
      · rw [hv5] at hi5; simp at hi5
      rcases hv6 : pyInt? f6 with - | i6
      · rw [hv6] at hi6; simp at hi6
      refine ⟨_, rfl, ?_⟩
      have hsl : isStatsLine l = true := by
        unfold isStatsLine isSchemeLine
        unfold isSchemeLine at hsch
        simp [hstat]
        simpa using hsch
      simp [hsl, statsSome, germInv]
      intro h
      exact absurd h hsch
    · rw [if_neg hstat] at hok
      have hstat2 : reSearch statsPat l = false := by simpa using hstat
      rw [hstat2]
      simp only [Bool.false_eq_true, if_false]
      by_cases hgerm : reSearch germPat l = true
      · rw [if_pos hgerm] at hok
        rw [hgerm]
        simp only [if_true]
        unfold germLineOk at hok
        rcases h1 : (pySplitChar l '|').get? 1 with - | f1 <;> rw [h1] at hok
        · simp at hok
        rcases h2 : (pySplitChar l '|').get? 2 with - | f2 <;> rw [h2] at hok
        · simp at hok
        rcases h3 : (pySplitChar l '|').get? 3 with - | f3 <;> rw [h3] at hok
        · simp at hok
        rcases h4 : (pySplitChar l '|').get? 4 with - | f4 <;> rw [h4] at hok
        · simp at hok
        rcases h5 : (pySplitChar l '|').get? 5 with - | f5 <;> rw [h5] at hok
        · simp at hok
        refine ⟨_, rfl, ?_⟩
        have hsl : isStatsLine l = false := by
          unfold isStatsLine
          simp [hstat2]
        have hscl : isSchemeLine l = false := by simpa using hsch
        simp [hsl, hscl, statsSome, germInv]
      · rw [if_neg hgerm]
        refine ⟨st, rfl, hst, rfl, rfl, rfl, rfl, rfl, rfl, ?_⟩
        have hsl : isStatsLine l = false := by
          unfold isStatsLine
          simp [by simpa using hstat]
        have hscl : isSchemeLine l = false := by simpa using hsch
        simp [hsl, hscl]

/-- Every whitespace token is nonempty. -/
theorem pySplitGo_pos (l : List Char) :
    ∀ (acc : List Char) (w : Chars), w ∈ pySplitGo l acc → 0 < w.length := by
  induction l with
  | nil =>
    intro acc w hw
    unfold pySplitGo at hw
    by_cases hacc : acc.isEmpty = true
    · rw [if_pos hacc] at hw
      simp at hw
    · rw [if_neg hacc] at hw
      simp at hw
      subst hw
      simp only [List.length_reverse]
      cases acc with
      | nil => simp at hacc
      | cons a as => simp
  | cons c cs ih =>
    intro acc w hw
    unfold pySplitGo at hw
    by_cases hc : isPySpace c = true
    · rw [if_pos hc] at hw
      by_cases hacc : acc.isEmpty = true
      · rw [if_pos hacc] at hw
        exact ih [] w hw
      · rw [if_neg hacc] at hw
        rcases List.mem_cons.mp hw with hw1 | hw1
        · subst hw1
          simp only [List.length_reverse]
          cases acc with
          | nil => simp at hacc
          | cons a as => simp
        · exact ih [] w hw1
    · rw [if_neg hc] at hw
      exact ih (c :: acc) w hw

theorem pySplit_pos {l : Chars} {w : Chars} (h : w ∈ pySplit l) :
    0 < w.length :=
  pySplitGo_pos l [] w h

/-- Transport of `statsSome` along field equalities. -/
theorem statsSome_congr {st st1 : NumState}
    (h : st1.species = st.species ∧ st1.chain_type = st.chain_type ∧
         st1.evalue = st.evalue ∧ st1.score = st.score ∧
         st1.seqstart_index = st.seqstart_index ∧ st1.hit_id = st.hit_id)
    (hs : statsSome st) : statsSome st1 := by
  obtain ⟨h1, h2, h3, h4, h5, h6⟩ := h
  obtain ⟨g1, g2, g3, g4, g5, g6⟩ := hs
  exact ⟨by rw [h1]; exact g1, by rw [h2]; exact g2, by rw [h3]; exact g3,
         by rw [h4]; exact g4, by rw [h5]; exact g5, by rw [h6]; exact g6⟩

/-- Folding the run over a block of processable comment lines. -/
theorem numComments_run (cs : List Chars) :
    ∀ st : NumState, st.state = 1 →
      (∀ c ∈ cs, c.head? = some '#' ∧ commentOk c = true) →
      ∃ st1, numRunSt st cs = (st1, [], none) ∧ st1.state = 1 ∧
        st1.sequence = st.sequence ∧ st1.annots = st.annots ∧
        st1.feature_lst = st.feature_lst ∧
        st1.residue_counter = st.residue_counter ∧
        st1.query_id = st.query_id ∧
        st1.query_description = st.query_description ∧
        ((cs.any isSchemeLine = true ∨ st.scheme.isSome = true) →
          st1.scheme.isSome = true) ∧
        ((cs.any isStatsLine = true ∨ statsSome st) → statsSome st1) ∧
        (germInv st → germInv st1) := by
  induction cs with
  | nil =>
    intro st hst hc
    refine ⟨st, rfl, hst, rfl, rfl, rfl, rfl, rfl, rfl, ?_, ?_, fun h => h⟩
    · intro h
      rcases h with h | h
      · simp at h
      · exact h
    · intro h
      rcases h with h | h
      · simp at h
      · exact h
  | cons c cs ih =>
    intro st hst hc
    obtain ⟨hh, hok⟩ := hc c (by simp)
    obtain ⟨stc, hcomment, hstc, hseq, hann, hfeat, hcnt, hqid, hqd, hsc1,
      hsc2, hstat1, hstat2, hgi⟩ := numComment_run1 hst hok
    have hstep := numStep_hash_ok hh hcomment
    obtain ⟨st1, hrun, hstate1, hseq1, hann1, hfeat1, hcnt1, hqid1, hqd1,
      hsch1, hstatX, hgi1⟩ := ih stc hstc (fun x hx => hc x (by simp [hx]))
    refine ⟨st1, ?_, hstate1, by rw [hseq1, hseq], by rw [hann1, hann],
      by rw [hfeat1, hfeat], by rw [hcnt1, hcnt], by rw [hqid1, hqid],
      by rw [hqd1, hqd], ?_, ?_, fun h => hgi1 (hgi h)⟩
    · rw [numRunSt_cons_ok hstep cs, hrun]
      rfl
    · intro h
      apply hsch1
      by_cases hcs : isSchemeLine c = true
      · exact Or.inr (hsc1 hcs)
      · rcases h with h | h
        · rw [List.any_cons] at h
          simp only [Bool.or_eq_true] at h
          rcases h with h | h
          · exact absurd h hcs
          · exact Or.inl h
        · right
          rw [hsc2 (by simpa using hcs)]
          exact h
    · intro h
      apply hstatX
      by_cases hcs : isStatsLine c = true
      · exact Or.inr (hstat1 hcs)
      · rcases h with h | h
        · rw [List.any_cons] at h
          simp only [Bool.or_eq_true] at h
          rcases h with h | h
          · exact absurd h hcs
          · exact Or.inl h
        · right
          exact statsSome_congr (hstat2 (by simpa using hcs)) h

/-- A residue row processes successfully; a gap row leaves the state
unchanged, a residue makes the accumulated sequence nonempty, and either way
everything except the accumulators is untouched. -/
theorem numStep_row {st : NumState} {l : Chars} (hrow : rowOk l = true)
    (hsome : isGapRow l = false →
      st.seqstart_index.isSome = true ∧ st.scheme.isSome = true) :
    ∃ st1, numStep st l = .ok (st1, none) ∧
      st1.query_id = st.query_id ∧
      st1.query_description = st.query_description ∧
      st1.scheme = st.scheme ∧ st1.species = st.species ∧
      st1.chain_type = st.chain_type ∧ st1.evalue = st.evalue ∧
      st1.score = st.score ∧ st1.seqstart_index = st.seqstart_index ∧
      st1.hit_id = st.hit_id ∧
      st1.assign_germline = st.assign_germline ∧
      st1.species_germline = st.species_germline ∧
      st1.v_gene = st.v_gene ∧ st1.v_identity = st.v_identity ∧
      st1.j_gene = st.j_gene ∧ st1.j_identity = st.j_identity ∧
      (isGapRow l = true → st1 = st) ∧
      (isGapRow l = false → st1.sequence ≠ []) ∧
      (st.sequence ≠ [] → st1.sequence ≠ []) := by
  unfold rowOk at hrow
  simp only [Bool.and_eq_true, Bool.not_eq_true', beq_eq_false_iff_ne,
    ne_eq, Option.isSome_iff_exists] at hrow
  obtain ⟨⟨hh, ht⟩, t2, h2⟩ := hrow
  have hblank : isBlank l = false := get2_not_blank h2
  have hstep : ∀ stx, numResidue st l = .ok stx →
      numStep st l = .ok (stx, none) := by
    intro stx hx
    unfold numStep
    rw [hblank, ht]
    simp only [Bool.false_eq_true, if_false]
    rw [if_neg (by simpa using hh), hx]
  by_cases hgap : isGapRow l = true
  · have h2g : (pySplit l).get? 2 = some ('-' :: []) := by
      unfold isGapRow at hgap
      simpa using hgap
    refine ⟨st, hstep st (numResidue_gap h2g), rfl, rfl, rfl, rfl, rfl, rfl,
      rfl, rfl, rfl, rfl, rfl, rfl, rfl, rfl, rfl, fun hx => rfl,
      ?_, fun hx => hx⟩
    · intro hx
      rw [hx] at hgap
      simp at hgap
  · have hgap2 : isGapRow l = false := by simpa using hgap
    obtain ⟨hsst, hsch⟩ := hsome hgap2
    have ht2 : ¬ t2 = ('-' :: []) := by
      intro hx
      subst hx
      unfold isGapRow at hgap2
      rw [h2] at hgap2
      simp at hgap2
    have hlen2 : 2 < (pySplit l).length := by
      by_contra hx
      push_neg at hx
      rw [List.get?_eq_none.mpr hx] at h2
      simp at h2
    have h1 : ∃ t1, (pySplit l).get? 1 = some t1 := by
      have h1l : 1 < (pySplit l).length := by omega
      rw [List.get?_eq_getElem?, List.getElem?_eq_getElem h1l]
      exact ⟨_, rfl⟩
    obtain ⟨t1, h1⟩ := h1
    have hlast : ∃ tl, (pySplit l).getLast? = some tl := by
      rw [← Option.isSome_iff_exists, List.getLast?_isSome]
      intro hx
      rw [hx] at hlen2
      simp at hlen2
    obtain ⟨tl, hlast⟩ := hlast
    have htl : tl ∈ pySplit l := List.mem_of_mem_getLast? hlast
    have htlpos : 0 < tl.length := pySplit_pos htl
    rcases hsst2 : st.seqstart_index with - | sst
    · rw [hsst2] at hsst; simp at hsst
    rcases hsch2 : st.scheme with - | sch
    · rw [hsch2] at hsch; simp at hsch
    have hres : numResidue st l = .ok
        { st with
          sequence := st.sequence ++ pyUpper tl,
          annots := st.annots ++
            [if (pySplit l).length = 4 then t1 ++ pyLower t2 else t1],
          feature_lst := st.feature_lst ++
            [{ locStart := sst + st.residue_counter,
               locEnd := sst + st.residue_counter + 1,
               ftype := sch,
               qualifiers := [(("residue".toList), pyUpper tl),
                 (("label".toList), pyUpper tl ++
                   (if (pySplit l).length = 4 then t1 ++ pyLower t2 else t1)),
                 (("ANARCI_".toList) ++ sch ++ ("_num".toList),
                  (if (pySplit l).length = 4 then t1 ++ pyLower t2
                   else t1))] }],
          residue_counter := st.residue_counter + 1,
          state := 1 } := by
      unfold numResidue
      dsimp only
      rw [h2]
      try dsimp only
      rw [if_neg ht2]
      rw [h1, hlast, hsst2, hsch2]
    refine ⟨_, hstep _ hres, rfl, rfl, hsch2, rfl, rfl, rfl, rfl, hsst2,
      rfl, rfl, rfl, rfl, rfl, rfl, rfl, ?_, ?_, ?_⟩
    · intro hx
      rw [hx] at hgap2
      simp at hgap2
    · intro hx
      simp only [ne_eq, List.append_eq_nil]
      intro hx2
      have := hx2.2
      have hlen3 : (pyUpper tl).length = tl.length := by
        unfold pyUpper
        simp
      rw [this] at hlen3
      simp at hlen3
      omega
    · intro hx
      simp only [ne_eq, List.append_eq_nil]
      intro hx2
      exact hx hx2.1

/-- Folding the run over a block of residue rows. -/
theorem numRows_run (rs : List Chars) :
    ∀ st : NumState,
      (∀ r ∈ rs, rowOk r = true) →
      (rs.any (fun r => !(isGapRow r)) = true →
        st.seqstart_index.isSome = true ∧ st.scheme.isSome = true) →
      ∃ st1, numRunSt st rs = (st1, [], none) ∧
        st1.query_id = st.query_id ∧
        st1.query_description = st.query_description ∧
        st1.scheme = st.scheme ∧ st1.species = st.species ∧
        st1.chain_type = st.chain_type ∧ st1.evalue = st.evalue ∧
        st1.score = st.score ∧ st1.seqstart_index = st.seqstart_index ∧
        st1.hit_id = st.hit_id ∧
        (germInv st → germInv st1) ∧
        (rs.any (fun r => !(isGapRow r)) = false →
          st1.sequence = st.sequence) ∧
        ((rs.any (fun r => !(isGapRow r)) = true ∨ st.sequence ≠ []) →
          st1.sequence ≠ []) := by
  induction rs with
  | nil =>
    intro st hrows hsome
    refine ⟨st, rfl, rfl, rfl, rfl, rfl, rfl, rfl, rfl, rfl, rfl,
      fun h => h, fun h => rfl, ?_⟩
    intro h
    rcases h with h | h
    · simp at h
    · exact h
  | cons r rs ih =>
    intro st hrows hsome
    have hrowr := hrows r (by simp)
    obtain ⟨stc, hstep, e1, e2, e3, e4, e5, e6, e7, e8, e9, e10, e11, e12,
      e13, e14, e15, hgapkeep, hnogap, hkeepne⟩ :=
      @numStep_row st r hrowr
        (fun hng => hsome (by simp [hng]))
    have hsome2 : rs.any (fun x => !(isGapRow x)) = true →
        stc.seqstart_index.isSome = true ∧ stc.scheme.isSome = true := by
      intro h
      have := hsome (by
        rw [List.any_cons]
        simp only [Bool.or_eq_true]
        exact Or.inr h)
      rw [e8, e3]
      exact this
    obtain ⟨st1, hrun, f1, f2, f3, f4, f5, f6, f7, f8, f9, f10, f11, f12⟩ :=
      ih stc (fun x hx => hrows x (by simp [hx])) hsome2
    refine ⟨st1, ?_, by rw [f1, e1], by rw [f2, e2], by rw [f3, e3],
      by rw [f4, e4], by rw [f5, e5], by rw [f6, e6], by rw [f7, e7],
      by rw [f8, e8], by rw [f9, e9], ?_, ?_, ?_⟩
    · rw [numRunSt_cons_ok hstep rs, hrun]
      rfl
    · intro hg
      apply f10
      intro hflag
      rw [e10] at hflag
      obtain ⟨g1, g2, g3, g4, g5⟩ := hg hflag
      rw [e11, e12, e13, e14, e15]
      exact ⟨g1, g2, g3, g4, g5⟩
    · intro h
      rw [List.any_cons, Bool.or_eq_false_iff] at h
      obtain ⟨h1, h2⟩ := h
      have hr : isGapRow r = true := by simpa using h1
      rw [f11 h2, hgapkeep hr]
    · intro h
      apply f12
      by_cases hgapr : isGapRow r = true
      · rcases h with h | h
        · rw [List.any_cons] at h
          simp only [Bool.or_eq_true] at h
          rcases h with h | h
          · rw [hgapr] at h
            simp at h
          · exact Or.inl h
        · right
          rw [hgapkeep hgapr]
          exact h
      · right
        exact hnogap (by simpa using hgapr)

/-- The header comment line, processed at a record boundary, binds the query
id to the header's second whitespace token and moves to the annotation
state (anarci_num.py lines 115-126, ordinary-id shape). -/
theorem numHeader_run1 {st : NumState} {l : Chars} {t1 : Chars}
    (hst : st.state = 0) (hh : l.head? = some '#')
    (h1 : (pySplit l).get? 1 = some t1)
    (hni : ¬ ((pySplit l).drop 1).take 2 =
      [("Input".toList), ("sequence".toList)]) :
    numStep st l = .ok
      ({ st with query_id := some t1,
                 query_description := some (joinSpace ((pySplit l).drop 2)),
                 state := 1 }, none) := by
  apply numStep_hash_ok hh
  unfold numComment
  rw [hst]
  rw [if_pos rfl]
  dsimp only
  rw [if_neg hni, h1]

/-- The terminator with an empty accumulated sequence yields the hit-less
record (anarci_num.py lines 96-105). -/
theorem numTerm_ok_empty {st : NumState} {l : Chars} {qid qd : Chars}
    (ht : isTerm l = true) (hseq : st.sequence = [])
    (hqid : st.query_id = some qid) (hqd : st.query_description = some qd) :
    numStep st l = .ok (numReset st, some (emptyNumQResult qid qd)) := by
  unfold numStep
  rw [isTerm_not_blank ht, ht]
  simp only [Bool.false_eq_true, if_false, if_true]
  unfold numTerm
  rw [hseq]
  simp only [List.isEmpty_nil, if_true]
  rw [hqid, hqd]

/-- The terminator with a nonempty accumulated sequence and all statistics
locals bound yields a hit-bearing record carrying the stored query id
(anarci_num.py lines 57-95). -/
theorem numTerm_ok_hit {st : NumState} {l : Chars} {qid : Chars}
    (ht : isTerm l = true) (hseq : st.sequence ≠ [])
    (hqid : st.query_id = some qid)
    (hqd : st.query_description.isSome = true)
    (hstats : statsSome st) (hsch : st.scheme.isSome = true)
    (hgi : germInv st) :
    ∃ q, numStep st l = .ok (numReset st, some q) ∧ q.id = qid := by
  unfold numStep
  rw [isTerm_not_blank ht, ht]
  simp only [Bool.false_eq_true, if_false, if_true]
  unfold numTerm
  have hne : st.sequence.isEmpty = false := by
    rcases hse : st.sequence with - | ⟨a, as⟩
    · exact absurd hse hseq
    · rfl
  rw [hne]
  simp only [Bool.false_eq_true, if_false]
  obtain ⟨hsp, hct, hev, hsc, hsst, hhid⟩ := hstats
  rw [Option.isSome_iff_exists] at hsp hct hev hsc hsst hhid hsch hqd
  obtain ⟨sp, hsp⟩ := hsp
  obtain ⟨ct, hct⟩ := hct
  obtain ⟨ev, hev⟩ := hev
  obtain ⟨sc, hsc⟩ := hsc
  obtain ⟨sst, hsst⟩ := hsst
  obtain ⟨hid, hhid⟩ := hhid
  obtain ⟨sch, hsch⟩ := hsch
  obtain ⟨qd, hqd⟩ := hqd
  rw [hhid, hqid, hsst, hev, hsc, hct, hsp, hsch, hqd]
  dsimp only
  rcases hag : st.assign_germline with - | -
  · exact ⟨_, rfl, rfl⟩
  · obtain ⟨hg1, hg2, hg3, hg4, hg5⟩ := hgi hag
    rw [Option.isSome_iff_exists] at hg1 hg2 hg3 hg4 hg5
    obtain ⟨sg, hg1⟩ := hg1
    obtain ⟨vg, hg2⟩ := hg2
    obtain ⟨vi, hg3⟩ := hg3
    obtain ⟨jg, hg4⟩ := hg4
    obtain ⟨ji, hg5⟩ := hg5
    rw [hg1, hg2, hg3, hg4, hg5]
    exact ⟨_, rfl, rfl⟩

/-- One well-formed record, processed from a record-boundary state, yields
exactly one query result, whose id is the record key, and returns the parser
to a record-boundary state. -/
theorem numRecord_run {st : NumState} {r : NumRecord}
    (hst : st.state = 0) (hseq : st.sequence = []) (hgi : germInv st)
    (hwf : WFrec r = true) :
    ∃ st1 q, numRunSt st r.lines = (st1, [q], none) ∧
      q.id = headerKey r ∧
      st1.state = 0 ∧ st1.sequence = [] ∧ germInv st1 := by
  unfold WFrec at hwf
  simp only [Bool.and_eq_true, Bool.not_eq_true', beq_eq_false_iff_ne, ne_eq,
    decide_eq_true_eq, List.all_eq_true, beq_iff_eq,
    Option.isSome_iff_exists] at hwf
  obtain ⟨⟨⟨⟨⟨⟨⟨⟨⟨hlineH, hheadH⟩, hsig⟩, t1, h1⟩, hni⟩, hcom⟩, hrows⟩,
    himp⟩, hlineT⟩, htermT⟩ := hwf
  have hstepH := @numHeader_run1 st r.header t1 hst hheadH h1 hni
  obtain ⟨stC, hrunC, hstC, hseqC, -, -, -, hqidC, hqdC, hschC, hstatC,
    hgiC⟩ := numComments_run r.comments
      { st with query_id := some t1,
                query_description :=
                  some (joinSpace ((pySplit r.header).drop 2)),
                state := 1 }
      rfl (fun c hc => ⟨(hcom c hc).1.2, (hcom c hc).2⟩)
  obtain ⟨stR, hrunR, g1, g2, g3, g4, g5, g6, g7, g8, g9, g10, g11, g12⟩ :=
    numRows_run r.rows stC (fun l hl => (hrows l hl).2)
      (fun hany => by
        obtain ⟨hstatAny, hschemeAny⟩ := himp hany
        exact ⟨(hstatC (Or.inl hstatAny)).2.2.2.2.1,
               hschC (Or.inl hschemeAny)⟩)
  have hqidR : stR.query_id = some t1 := by rw [g1, hqidC]
  have hgiR : germInv stR := g10 (hgiC hgi)
  have hassemble : ∀ q : QueryResult,
      numStep stR r.term = .ok (numReset stR, some q) →
      numRunSt st r.lines = (numReset stR, [q], none) := by
    intro q hstepT
    show numRunSt st
      (r.header :: (r.comments ++ (r.rows ++ [r.term]))) = _
    rw [numRunSt_cons_ok hstepH]
    rw [numRunSt_append r.comments _ _ _ _ hrunC]
    rw [numRunSt_append r.rows _ _ _ _ hrunR]
    rw [numRunSt_cons_ok hstepT]
    rfl
  by_cases hseqR : stR.sequence = []
  · have hqdR : stR.query_description =
        some (joinSpace ((pySplit r.header).drop 2)) := by
      rw [g2, hqdC]
    have hstepT := numTerm_ok_empty htermT hseqR hqidR hqdR
    refine ⟨numReset stR, _, hassemble _ hstepT, ?_, rfl, rfl, ?_⟩
    · show t1 = headerKey r
      unfold headerKey
      rw [h1]
      rfl
    · exact hgiR
  · have hany : r.rows.any (fun l => !(isGapRow l)) = true := by
      by_contra hx
      apply hseqR
      rw [g11 (by simpa using hx), hseqC]
      exact hseq
    obtain ⟨hstatAny, hschemeAny⟩ := himp hany
    have hstatsR : statsSome stR :=
      statsSome_congr ⟨g4, g5, g6, g7, g8, g9⟩ (hstatC (Or.inl hstatAny))
    have hschR : stR.scheme.isSome = true := by
      rw [g3]
      exact hschC (Or.inl hschemeAny)
    have hqdR : stR.query_description.isSome = true := by
      rw [g2, hqdC]
      rfl
    obtain ⟨q0, hstepT, hq0⟩ :=
      numTerm_ok_hit htermT hseqR hqidR hqdR hstatsR hschR hgiR
    refine ⟨numReset stR, q0, hassemble _ hstepT, ?_, rfl, rfl, hgiR⟩
    rw [hq0]
    unfold headerKey
    rw [h1]
    rfl

/-- Folding the parser's run over a list of well-formed records. -/
theorem numRecords_run (rs : List NumRecord) :
    ∀ st : NumState, st.state = 0 → st.sequence = [] → germInv st →
      (∀ r ∈ rs, WFrec r = true) →
      ∃ st1 qs, numRunSt st (recLines rs) = (st1, qs, none) ∧
        qs.map QueryResult.id = rs.map headerKey ∧
        st1.state = 0 ∧ st1.sequence = [] ∧ germInv st1 := by
  induction rs with
  | nil =>
    intro st h0 h1 h2 h3
    exact ⟨st, [], rfl, rfl, h0, h1, h2⟩
  | cons r rs ih =>
    intro st h0 h1 h2 h3
    obtain ⟨stA, q, hrunA, hqid, hA0, hA1, hA2⟩ :=
      numRecord_run h0 h1 h2 (h3 r (by simp))
    obtain ⟨st1, qs, hrun1, hqs, hB0, hB1, hB2⟩ :=
      ih stA hA0 hA1 hA2 (fun x hx => h3 x (by simp [hx]))
    refine ⟨st1, q :: qs, ?_, ?_, hB0, hB1, hB2⟩
    · show numRunSt st (r.lines ++ recLines rs) = _
      rw [numRunSt_append r.lines _ _ _ _ hrunA, hrun1]
      rfl
    · simp [hqid, hqs]

theorem isLine_not_empty {l : Chars} (h : isLine l = true) :
    l.isEmpty = false := by
  cases l with
  | nil => simp [isLine] at h
  | cons c cs => rfl

/-- Every line of a well-formed file is newline-terminated. -/
theorem recLines_isLine {rs : List NumRecord}
    (h : ∀ r ∈ rs, WFrec r = true) :
    ∀ l ∈ recLines rs, isLine l = true := by
  intro l hl
  unfold recLines at hl
  simp only [List.mem_flatten, List.mem_map] at hl
  obtain ⟨L, ⟨r, hr, hL⟩, hlL⟩ := hl
  subst hL
  have hwf := h r hr
  unfold WFrec at hwf
  simp only [Bool.and_eq_true, List.all_eq_true] at hwf
  obtain ⟨⟨⟨⟨⟨⟨⟨⟨⟨hlineH, -⟩, -⟩, -⟩, -⟩, hcom⟩, hrows⟩, -⟩, hlineT⟩, -⟩ :=
    hwf
  unfold NumRecord.lines at hlL
  rcases List.mem_cons.mp hlL with hx | hx
  · subst hx
    exact hlineH
  rcases List.mem_append.mp hx with hx | hx
  · exact (hcom l hx).1.1
  rcases List.mem_append.mp hx with hx | hx
  · exact (hrows l hx).1
  · have hx2 : l = r.term := by simpa using hx
    subst hx2
    exact hlineT

/-- Parsing a well-formed numbered file: one `QueryResult` per record, the
ids are the record keys, and the generator finishes without an error. -/
theorem numParse_ids {rs : List NumRecord} (h : ∀ r ∈ rs, WFrec r = true) :
    ((AnarciNumParser.parse (recBytes rs)).1).map QueryResult.id =
      rs.map headerKey ∧
    (AnarciNumParser.parse (recBytes rs)).2 = none := by
  obtain ⟨st1, qs, hrun, hmap, -, -, -⟩ :=
    numRecords_run rs numInit rfl rfl (by intro hx; simp [numInit] at hx) h
  cases rs with
  | nil => exact ⟨rfl, rfl⟩
  | cons r1 rs' =>
    have hlines := recLines_isLine h
    have hwf1 := h r1 (by simp)
    unfold WFrec at hwf1
    simp only [Bool.and_eq_true, Bool.not_eq_true'] at hwf1
    obtain ⟨⟨⟨⟨⟨⟨⟨⟨⟨hlineH, -⟩, hsigH⟩, -⟩, -⟩, -⟩, -⟩, -⟩, -⟩, -⟩ := hwf1
    have hd : (recBytes (r1 :: rs')).drop 0 =
        r1.header ++
          ((r1.comments ++ (r1.rows ++ [r1.term])) ++ recLines rs').flatten :=
      rfl
    have hfirst : readLine (recBytes (r1 :: rs')) 0 = r1.header :=
      readLine_at hd hlineH
    have hparse : AnarciNumParser.parse (recBytes (r1 :: rs')) =
        (qs, none) := by
      unfold AnarciNumParser.parse
      rw [hfirst, hsigH]
      simp only [Bool.false_eq_true, if_false]
      rw [isLine_not_empty hlineH]
      simp only [Bool.false_eq_true, if_false]
      rw [show recBytes (r1 :: rs') = (recLines (r1 :: rs')).flatten from rfl,
        linesFrom_flatten _ hlines]
      unfold numRun
      rw [hrun]
    exact ⟨by rw [hparse]; exact hmap, by rw [hparse]⟩


/-- One `numIndexGo` iteration at end of file. -/
theorem numIndexGo_step_eof {f : Chars} {p : Nat} (hd : f.drop p = [])
    (fuel : Nat) (key : Option Chars) (start state : Nat) :
    numIndexGo f (fuel + 1) p key start state = ([], none) := by
  simp only [numIndexGo]
  rw [readLine_end hd]
  rfl

/-- One `numIndexGo` iteration on a comment line in the annotation state. -/
theorem numIndexGo_step_hash {f : Chars} {p : Nat} {l : Chars}
    (hl : readLine f p = l) (hne : l.isEmpty = false)
    (hh : l.head? = some '#') (fuel : Nat) (key : Option Chars)
    (start : Nat) :
    numIndexGo f (fuel + 1) p key start 1 =
      numIndexGo f fuel (p + l.length) key start 1 := by
  simp only [numIndexGo]
  rw [hl]
  try dsimp only
  rw [hne]
  simp only [Bool.false_eq_true, if_false]
  rw [if_pos hh, if_neg (by decide : ¬(1 = 0))]

/-- One `numIndexGo` iteration on the header line in the query-id state. -/
theorem numIndexGo_step_hdr {f : Chars} {p : Nat} {l k : Chars}
    (hl : readLine f p = l) (hne : l.isEmpty = false)
    (hh : l.head? = some '#') (hk : (pySplit l).get? 1 = some k)
    (fuel : Nat) (key : Option Chars) (start : Nat) :
    numIndexGo f (fuel + 1) p key start 0 =
      numIndexGo f fuel (p + l.length) (some k) start 1 := by
  simp only [numIndexGo]
  rw [hl]
  try dsimp only
  rw [hne]
  simp only [Bool.false_eq_true, if_false]
  rw [if_pos hh]
  simp only [if_true]
  rw [hk]

/-- One `numIndexGo` iteration on a residue row. -/
theorem numIndexGo_step_row {f : Chars} {p : Nat} {l : Chars}
    (hl : readLine f p = l) (hne : l.isEmpty = false)
    (hh : ¬(l.head? = some '#')) (ht : isTerm l = false)
    (fuel : Nat) (key : Option Chars) (start state : Nat) :
    numIndexGo f (fuel + 1) p key start state =
      numIndexGo f fuel (p + l.length) key start 0 := by
  simp only [numIndexGo]
  rw [hl]
  try dsimp only
  rw [hne]
  simp only [Bool.false_eq_true, if_false]
  rw [if_neg hh, ht]
  simp only [Bool.false_eq_true, if_false]

/-- One `numIndexGo` iteration on a terminator line: the pending span is
yielded and the scan restarts at the next byte. -/
theorem numIndexGo_step_term {f : Chars} {p : Nat} {l : Chars}
    (hl : readLine f p = l) (hne : l.isEmpty = false)
    (ht : isTerm l = true) (fuel : Nat) (key : Option Chars)
    (start state : Nat) :
    numIndexGo f (fuel + 1) p key start state =
      ((key, start, p + l.length - start) ::
         (numIndexGo f fuel (p + l.length) key (p + l.length) 0).1,
       (numIndexGo f fuel (p + l.length) key (p + l.length) 0).2) := by
  have hh : ¬(l.head? = some '#') := by
    rw [isTerm_head ht]
    simp
  simp only [numIndexGo]
  rw [hl]
  try dsimp only
  rw [hne]
  simp only [Bool.false_eq_true, if_false]
  rw [if_neg hh, if_pos ht]

/-- The index scan passes over a block of comment lines in the annotation
state without touching the key or the pending start offset. -/
theorem numIndexGo_comments (cs : List Chars) :
    ∀ (f rest : Chars) (fuel p start : Nat) (key : Option Chars),
      (∀ c ∈ cs, isLine c = true ∧ c.head? = some '#') →
      f.drop p = cs.flatten ++ rest →
      numIndexGo f (fuel + cs.length) p key start 1 =
        numIndexGo f fuel (p + cs.flatten.length) key start 1 := by
  induction cs with
  | nil =>
    intro f rest fuel p start key hc hd
    simp
  | cons c cs ih =>
    intro f rest fuel p start key hc hd
    obtain ⟨hlineC, hheadC⟩ := hc c (by simp)
    have hd1 : f.drop p = c ++ (cs.flatten ++ rest) := by
      rw [hd]
      simp [List.append_assoc]
    have hline : readLine f p = c := readLine_at hd1 hlineC
    rw [List.length_cons, ← Nat.add_assoc]
    rw [numIndexGo_step_hash hline (isLine_not_empty hlineC) hheadC]
    rw [ih f rest fuel (p + c.length) start key
      (fun x hx => hc x (by simp [hx])) (drop_next hd1)]
    have harith : p + c.length + cs.flatten.length =
        p + (c :: cs).flatten.length := by
      simp only [List.flatten_cons, List.length_append]
      omega
    rw [harith]

/-- The index scan passes over a block of residue rows, ending in some
state, without touching the key or the pending start offset. -/
theorem numIndexGo_rows (ls : List Chars) :
    ∀ (f rest : Chars) (fuel p start state : Nat) (key : Option Chars),
      (∀ l ∈ ls, isLine l = true ∧ rowOk l = true) →
      f.drop p = ls.flatten ++ rest →
      ∃ state1, numIndexGo f (fuel + ls.length) p key start state =
        numIndexGo f fuel (p + ls.flatten.length) key start state1 := by
  induction ls with
  | nil =>
    intro f rest fuel p start state key hc hd
    exact ⟨state, by simp⟩
  | cons c cs ih =>
    intro f rest fuel p start state key hc hd
    obtain ⟨hlineC, hrowC⟩ := hc c (by simp)
    unfold rowOk at hrowC
    simp only [Bool.and_eq_true, Bool.not_eq_true', beq_eq_false_iff_ne,
      ne_eq] at hrowC
    obtain ⟨⟨hheadC, htermC⟩, -⟩ := hrowC
    have hd1 : f.drop p = c ++ (cs.flatten ++ rest) := by
      rw [hd]
      simp [List.append_assoc]
    have hline : readLine f p = c := readLine_at hd1 hlineC
    obtain ⟨state1, hrec⟩ := ih f rest fuel (p + c.length) start 0 key
      (fun x hx => hc x (by simp [hx])) (drop_next hd1)
    refine ⟨state1, ?_⟩
    rw [List.length_cons, ← Nat.add_assoc]
    rw [numIndexGo_step_row hline (isLine_not_empty hlineC) hheadC htermC]
    rw [hrec]
    have harith : p + c.length + cs.flatten.length =
        p + (c :: cs).flatten.length := by
      simp only [List.flatten_cons, List.length_append]
      omega
    rw [harith]

/-- The index scan over one well-formed record: it records one entry whose
key is the record key and whose span is exactly the record's bytes, and
resumes at the next record boundary. -/
theorem numIndexGo_record {f : Chars} {r : NumRecord}
    (hwf : WFrec r = true) :
    ∀ (fuel p : Nat) (key : Option Chars) (rest : Chars),
      f.drop p = r.bytes ++ rest →
      numIndexGo f (fuel + r.lines.length) p key p 0 =
        ((some (headerKey r), p, r.bytes.length) ::
           (numIndexGo f fuel (p + r.bytes.length) (some (headerKey r))
             (p + r.bytes.length) 0).1,
         (numIndexGo f fuel (p + r.bytes.length) (some (headerKey r))
           (p + r.bytes.length) 0).2) := by
  intro fuel p key rest hd
  unfold WFrec at hwf
  simp only [Bool.and_eq_true, Bool.not_eq_true', List.all_eq_true,
    Option.isSome_iff_exists] at hwf
  obtain ⟨⟨⟨⟨⟨⟨⟨⟨⟨hlineH, hheadH⟩, -⟩, t1, h1⟩, -⟩, hcom⟩, hrows⟩,
    -⟩, hlineT⟩, htermT⟩ := hwf
  have hheadH2 : r.header.head? = some '#' := by simpa using hheadH
  have hd0 : f.drop p = r.header ++ (r.comments.flatten ++
      (r.rows.flatten ++ (r.term ++ rest))) := by
    rw [hd]
    simp [NumRecord.bytes, NumRecord.lines, List.append_assoc]
  have hkey : headerKey r = t1 := by
    unfold headerKey
    rw [h1]
    rfl
  have hlen : fuel + r.lines.length =
      fuel + 1 + r.rows.length + r.comments.length + 1 := by
    simp only [NumRecord.lines, List.length_cons, List.length_append,
      List.length_nil]
    omega
  rw [hlen]
  rw [numIndexGo_step_hdr (readLine_at hd0 hlineH)
    (isLine_not_empty hlineH) hheadH2 h1]
  have hd1 : f.drop (p + r.header.length) = r.comments.flatten ++
      (r.rows.flatten ++ (r.term ++ rest)) := drop_next hd0
  rw [numIndexGo_comments r.comments f (r.rows.flatten ++ (r.term ++ rest))
    (fuel + 1 + r.rows.length) (p + r.header.length) p (some t1)
    (fun c hc => ⟨(hcom c hc).1.1, by simpa using (hcom c hc).1.2⟩) hd1]
  have hd2 : f.drop (p + r.header.length + r.comments.flatten.length) =
      r.rows.flatten ++ (r.term ++ rest) := drop_next hd1
  obtain ⟨state1, hrowseq⟩ := numIndexGo_rows r.rows f (r.term ++ rest)
    (fuel + 1) (p + r.header.length + r.comments.flatten.length) p 1
    (some t1) (fun l hl => hrows l hl) hd2
  rw [hrowseq]
  have hd3 : f.drop (p + r.header.length + r.comments.flatten.length +
      r.rows.flatten.length) = r.term ++ rest := drop_next hd2
  rw [numIndexGo_step_term (readLine_at hd3 hlineT)
    (isLine_not_empty hlineT) htermT]
  have hbytes : r.bytes.length = r.header.length +
      r.comments.flatten.length + r.rows.flatten.length +
      r.term.length := by
    simp only [NumRecord.bytes, NumRecord.lines, List.flatten_cons,
      List.flatten_append, List.length_append, List.flatten_cons,
      List.flatten_nil, List.append_nil]
    omega
  have he1 : p + r.header.length + r.comments.flatten.length +
      r.rows.flatten.length + r.term.length = p + r.bytes.length := by
    omega
  have he2 : p + r.header.length + r.comments.flatten.length +
      r.rows.flatten.length + r.term.length - p = r.bytes.length := by
    omega
  rw [he2, he1, hkey]

/-- The index scan over a list of well-formed records followed by end of
file: one entry per record, keyed by the record keys, no error. -/
theorem numIndex_records (rs : List NumRecord) :
    ∀ (f : Chars) (fuel p : Nat) (key : Option Chars),
      (∀ r ∈ rs, WFrec r = true) → f.drop p = recBytes rs →
      ∃ entries,
        numIndexGo f (fuel + 1 + totLines rs) p key p 0 =
          (entries, none) ∧
        entries.map (fun e => e.1) =
          rs.map (fun r => some (headerKey r)) := by
  induction rs with
  | nil =>
    intro f fuel p key h hd
    exact ⟨[], numIndexGo_step_eof hd (fuel + 0) key p 0, rfl⟩
  | cons r rs ih =>
    intro f fuel p key h hd
    have hd1 : f.drop p = r.bytes ++ recBytes rs := by
      rw [hd]
      simp [recBytes, recLines, NumRecord.bytes]
    have hlen : fuel + 1 + totLines (r :: rs) =
        (fuel + 1 + totLines rs) + r.lines.length := by
      simp only [totLines, List.map_cons, List.sum_cons]
      omega
    rw [hlen]
    rw [numIndexGo_record (h r (by simp)) (fuel + 1 + totLines rs) p key
      (recBytes rs) hd1]
    obtain ⟨entries, hrun, hmap⟩ := ih f fuel (p + r.bytes.length)
      (some (headerKey r)) (fun x hx => h x (by simp [hx]))
      (drop_next hd1)
    refine ⟨(some (headerKey r), p, r.bytes.length) :: entries, ?_, ?_⟩
    · rw [hrun]
    · simp [hmap]

/-- The numbered-format indexer over a well-formed file: the recorded keys
are the record keys, in order, and the scan reaches end of file without an
error. -/
theorem numIndex_ids {rs : List NumRecord}
    (h : ∀ r ∈ rs, WFrec r = true) :
    ∃ entries,
      AnarciNumIndexer.qresultIndex (recBytes rs) = (entries, none) ∧
      entries.map (fun e => e.1) =
        rs.map (fun r => some (headerKey r)) := by
  have h1 : totLines rs = (recLines rs).length := by
    simp only [totLines, recLines, List.length_flatten, List.map_map]
    rfl
  have htot : totLines rs ≤ (recBytes rs).length := by
    rw [h1]
    exact lines_count_le _ (recLines_isLine h)
  have harith : (recBytes rs).length + 1 =
      ((recBytes rs).length - totLines rs) + 1 + totLines rs := by omega
  unfold AnarciNumIndexer.qresultIndex
  rw [harith]
  exact numIndex_records rs (recBytes rs)
    ((recBytes rs).length - totLines rs) 0 none h (by simp)

/-- Claim C8, counterexample: on a record whose header reports
`Input sequence` the parser and the indexer disagree.  The parser's header
rule (anarci_num.py lines 115-120) emits the sentinel id `<unknown id>`,
while the indexer (lines 201-215) unconditionally records
`line.split()[1]`, the literal token `Input`, so the recorded key is NOT
the emitted id. -/
theorem C8_counterexample :
    ((AnarciNumParser.parse c8File).1).map QueryResult.id =
      [("<unknown id>".toList)] ∧
    (AnarciNumParser.parse c8File).2 = none ∧
    ((AnarciNumIndexer.qresultIndex c8File).1).map (fun e => e.1) =
      [some ("Input".toList)] ∧
    (AnarciNumIndexer.qresultIndex c8File).2 = none ∧
    ¬ (("<unknown id>".toList) = ("Input".toList)) := by
  decide

/-- Claim C8, amended: over a well-formed numbered file whose record
headers all carry a real id (second whitespace token present and not the
`Input sequence` shape, as `WFrec` requires), parser and indexer agree
record by record: both finish without an error, the parser emits one
`QueryResult` per record whose id is the header's second token, and the
indexer records exactly the same ids as its keys, in the same order.  For
an `Input sequence` header the two sides differ (see the counterexample),
so the claim's inclusion of such records is wrong. -/
theorem C8_amended (rs : List NumRecord)
    (h : ∀ r ∈ rs, WFrec r = true) :
    (AnarciNumParser.parse (recBytes rs)).2 = none ∧
    (AnarciNumIndexer.qresultIndex (recBytes rs)).2 = none ∧
    ((AnarciNumIndexer.qresultIndex (recBytes rs)).1).map (fun e => e.1) =
      (((AnarciNumParser.parse (recBytes rs)).1).map QueryResult.id).map
        some ∧
    ((AnarciNumParser.parse (recBytes rs)).1).map QueryResult.id =
      rs.map headerKey := by
  obtain ⟨hmap, herr⟩ := numParse_ids h
  obtain ⟨entries, hidx, hkeys⟩ := numIndex_ids h
  refine ⟨herr, by rw [hidx], ?_, hmap⟩
  rw [hidx]
  dsimp only
  rw [hkeys, hmap]
  simp [List.map_map]

/-- Witness for the amended C8, at the two-record file built from
`c8wRec1` and `c8wRec2`. -/
theorem C8_witness :
    (∀ r ∈ [c8wRec1, c8wRec2], WFrec r = true) ∧
    ((AnarciNumParser.parse (recBytes [c8wRec1, c8wRec2])).2 = none ∧
     (AnarciNumIndexer.qresultIndex (recBytes [c8wRec1, c8wRec2])).2 =
       none ∧
     ((AnarciNumIndexer.qresultIndex
         (recBytes [c8wRec1, c8wRec2])).1).map (fun e => e.1) =
       (((AnarciNumParser.parse
           (recBytes [c8wRec1, c8wRec2])).1).map QueryResult.id).map
         some ∧
     ((AnarciNumParser.parse (recBytes [c8wRec1, c8wRec2])).1).map
         QueryResult.id =
       [c8wRec1, c8wRec2].map headerKey) :=
  ⟨by decide, C8_amended [c8wRec1, c8wRec2] (by decide)⟩

end Anarci
